import Mathlib

/-!
Shallow embedding of the Reserva_Material sales-order monitor
(`so_mapper.py`, `inspect_so.py`).

Conventions of the embedding:
* JSON values are modelled by `JVal`; Python `None` is `JVal.null`.
* Python floats are modelled by `ℚ` (no claim here depends on binary
  rounding), Python ints by `ℤ`.
* Python `%` is floor-mod; every `%` in the source is applied with a
  positive right operand, where floor-mod agrees with `Int.emod`
  (for ints) and with `a - b * ⌊a / b⌋` (for floats).
* I/O (HTTP fetch, SMTP, file read/write) is modelled by explicit
  parameters: a fetched product record is passed in as a `JVal`
  (`JVal.obj []`, Python `{}`, when fetching is disabled, the line has
  no product id, or the fetch fails), and the persisted status file is
  a field of the run state that only `save_status_map` changes.
* `str.lower()` is modelled for ASCII plus the accented letters that
  occur in the fixed pattern tables; `\d`, `\s` and `\w` are the ASCII
  classes (the fixed patterns of the source are ASCII except for `í`).
* Numeric-literal parsing (`float(s)`, `int(s)`) is modelled for plain
  decimal forms; exponent, infinity and nan literals are outside the
  modelled input space, as are product records whose `name`/`sku`
  attributes are lists or dicts.
-/

set_option linter.unusedVariables false

namespace SO

/-! ## Character helpers -/

/-- ASCII digit test, the regex class `\d` as used by the fixed patterns. -/
def isDigitCh (c : Char) : Bool := decide ('0' ≤ c) && decide (c ≤ '9')

/-- Whitespace, Python `str.strip` / regex `\s` (ASCII part). -/
def isWsCh (c : Char) : Bool :=
  c = ' ' || c = '\t' || c = '\n' || c = '\r' || c = '\x0b' || c = '\x0c'

/-- Word character, the regex class `\w` (ASCII part), used by `\b`. -/
def isWordCh (c : Char) : Bool :=
  isDigitCh c || (decide ('a' ≤ c) && decide (c ≤ 'z')) ||
    (decide ('A' ≤ c) && decide (c ≤ 'Z')) || c = '_'

/-- Python `str.lower`, for ASCII plus the accented letters appearing in
the source's fixed tables (`env[ií]o`, tag names, `Tomás`). -/
def pyLowerChar (c : Char) : Char :=
  if c = 'Á' then 'á' else if c = 'É' then 'é' else if c = 'Í' then 'í'
  else if c = 'Ó' then 'ó' else if c = 'Ú' then 'ú' else if c = 'Ñ' then 'ñ'
  else if c = 'Ü' then 'ü' else c.toLower

def pyLowerL (cs : List Char) : List Char := cs.map pyLowerChar

def pyLowerS (s : String) : String := ⟨pyLowerL s.data⟩

/-- Python `str.strip()` on a char list. -/
def pyStripL (cs : List Char) : List Char :=
  ((cs.dropWhile isWsCh).reverse.dropWhile isWsCh).reverse

def pyStripS (s : String) : String := ⟨pyStripL s.data⟩

/-- Value of a digit string (most significant first). -/
def digitsToNat (l : List Char) : ℕ :=
  l.foldl (fun a c => 10 * a + (c.toNat - '0'.toNat)) 0

/-- First `some` in a list of options (first-match-wins loops). -/
def firstSome {α : Type} : List (Option α) → Option α
  | [] => none
  | some a :: _ => some a
  | none :: rest => firstSome rest

/-- Literal-prefix test on char lists. -/
def startsWithL : List Char → List Char → Bool
  | [], _ => true
  | _ :: _, [] => false
  | p :: ps, c :: cs => (p = c) && startsWithL ps cs

/-- Substring test (Python `needle in hay`). -/
def isSubstrL (needle : List Char) : List Char → Bool
  | [] => startsWithL needle []
  | c :: cs => startsWithL needle (c :: cs) || isSubstrL needle cs

/-! ## JSON values and Python coercions -/

/-- A JSON value as loaded from the API or the status file.
`null` doubles as Python `None`. -/
inductive JVal : Type
  | null : JVal
  | str (s : String) : JVal
  | num (q : ℚ) : JVal
  | boolean (b : Bool) : JVal
  | arr (xs : List JVal) : JVal
  | obj (fields : List (String × JVal)) : JVal

/-- Python truthiness of a JSON value. -/
def pyTruthy : JVal → Bool
  | .null => false
  | .str s => !(s = "")
  | .num q => !(q = 0)
  | .boolean b => b
  | .arr xs => !xs.isEmpty
  | .obj fs => !fs.isEmpty

/-- Python `val not in (None, "", [])` (the emptiness filter of
`try_fields`): only `None`, the empty string and the empty list are
excluded — `0`, `False` and `{}` all pass. -/
def jNotEmpty : JVal → Bool
  | .null => false
  | .str s => !(s = "")
  | .arr xs => !xs.isEmpty
  | _ => true

/-- Parse a nonempty all-digit string. -/
def parseDigits : List Char → Option ℕ
  | [] => none
  | cs => if cs.all isDigitCh then some (digitsToNat cs) else none

/-- Python `int(s)` on a string: optional surrounding whitespace,
optional sign, decimal digits. -/
def strToInt? (s : String) : Option ℤ :=
  let cs := pyStripL s.data
  match cs with
  | '-' :: rest => (parseDigits rest).map (fun n => -(n : ℤ))
  | '+' :: rest => (parseDigits rest).map (fun n => (n : ℤ))
  | _ => (parseDigits cs).map (fun n => (n : ℤ))

/-- Python `float(s)` on a string: optional surrounding whitespace,
optional sign, decimal digits with an optional fractional part
(`"12"`, `"12."`, `".5"`, `"12.25"`). -/
def strToRat? (s : String) : Option ℚ :=
  let cs := pyStripL s.data
  let core : List Char → Option ℚ := fun cs =>
    let ip := cs.takeWhile isDigitCh
    let rest := cs.dropWhile isDigitCh
    match rest with
    | [] => if ip.isEmpty then none else some ((digitsToNat ip : ℚ))
    | '.' :: fp =>
      if fp.all isDigitCh ∧ ¬(ip.isEmpty ∧ fp.isEmpty) then
        some ((digitsToNat ip : ℚ) + (digitsToNat fp : ℚ) / ((10 : ℚ) ^ fp.length))
      else none
    | _ => none
  match cs with
  | '-' :: rest => (core rest).map (fun q => -q)
  | '+' :: rest => core rest
  | _ => core cs

/-- Python `float(val)`: `none` means the call raises (recovered by the
caller's `except`). -/
def pyFloat? : JVal → Option ℚ
  | .num q => some q
  | .str s => strToRat? s
  | .boolean b => some (if b then 1 else 0)
  | _ => none

/-- Python `int(val)`: truncation toward zero on numbers, integer-literal
parsing on strings; `none` means the call raises. -/
def pyInt? : JVal → Option ℤ
  | .num q => some (q.num.tdiv (q.den : ℤ))
  | .str s => strToInt? s
  | .boolean b => some (if b then 1 else 0)
  | _ => none

/-- Python `str(v)` for the scalar values that reach it in the source.
Non-integer rationals and composite values never carry the text the
scanners look for in the modelled input space; their exact repr is not
reproduced. -/
def pyStr : JVal → String
  | .str s => s
  | .num q => if q.den = 1 then toString q.num else toString q.num ++ "/" ++ toString q.den
  | .boolean b => if b then "True" else "False"
  | .null => "None"
  | .arr _ => ""
  | .obj _ => ""

/-- Python `str(v or "")`. -/
def pyStrOrEmpty (v : JVal) : String := if pyTruthy v then pyStr v else ""

/-- Python `v or "-"` for a string-valued field. -/
def pyStrOrDash (v : JVal) : String := if pyTruthy v then pyStr v else "-"

/-- Python `float(v or 0)` (with the coercion failures that would raise
outside the modelled input space defaulted to 0, per the spec's
"default of zero on coercion failure"). -/
def pyFloatOr0 (v : JVal) : ℚ :=
  if pyTruthy v then (pyFloat? v).getD 0 else 0

/-- Python `int(q)` on a float: truncation toward zero. -/
def pyIntOfFloat (q : ℚ) : ℤ := q.num.tdiv (q.den : ℤ)

/-- Python float `%` (floor-mod): `a - b * floor(a / b)`. Only used with
`b > 0` in the source (guarded by `if qty and upp`). -/
def pyModQ (a b : ℚ) : ℚ := a - b * (⌊a / b⌋ : ℤ)

/-! ## String-keyed maps (JSON objects / the status map) -/

/-- An association list with Python-dict lookup/update semantics:
first binding wins, update replaces in place, insert appends. -/
abbrev SMap : Type := List (String × JVal)

def mapGet? : SMap → String → Option JVal
  | [], _ => none
  | (k', v) :: rest, k => if k' = k then some v else mapGet? rest k

def mapContains (m : SMap) (k : String) : Bool := (mapGet? m k).isSome

def mapSet : SMap → String → JVal → SMap
  | [], k, v => [(k, v)]
  | (k', v') :: rest, k, v =>
    if k' = k then (k, v) :: rest else (k', v') :: mapSet rest k v

/-- Field access `v.get(k)` on a JSON object (`null` when absent or when
`v` is not an object). -/
def jGet (v : JVal) (k : String) : JVal :=
  match v with
  | .obj fs => (mapGet? fs k).getD .null
  | _ => .null

/-! ## Status normalization (`normalize_status`, lines 59–76) -/

/-- Internal convention: 0 = Pendiente, 1 = Aceptado, -1 = Cancelado. -/
def CANCELLED : ℤ := -1

/-- `normalize_status(val)`: coerce with `int(...)` (raises → `None`),
then map 2 to -1, keep 0, 1 and -1, anything else to `None`. -/
def normalize_status (v : JVal) : Option ℤ :=
  match pyInt? v with
  | none => none
  | some n =>
    if n = 2 then some (-1)
    else if n = 0 ∨ n = 1 ∨ n = -1 then some n
    else none

/-! ## Status transition tracking (`main`, lines 601–715)

One document's pass through the tracker: normalize previous and current
status, decide the send reason, and update the in-memory status map.
The two opt-in CLI flags (`--email-new-accepted`, `--email-new-any`,
both default off) are passed explicitly.  Python's `send_reason = None`
is modelled by `Reason.NONE`. -/

inductive Reason : Type
  | NEW_ANY | REOPENED_TO_SALE | CANCELLED | NEW_ACCEPTED | NONE
  deriving DecidableEq, Repr

/-- The fields of a raw document the tracker reads.  `id` is the result
of `_doc_id` (first of `_id`/`id`/`docNumber`/`number`). -/
structure TrackDoc : Type where
  id : String
  status : JVal

/-- Lines 607–653 and 705–712 of `main` for one document:
status lookup, event classification, in-memory map update. -/
def trackStep (email_new_accepted email_new_any : Bool)
    (m : SMap) (d : TrackDoc) : Reason × SMap :=
  let cur_status := normalize_status d.status
  let prev_status := normalize_status ((mapGet? m d.id).getD .null)
  let first_seen := !(mapContains m d.id)
  let send_reason : Reason :=
    if first_seen then .NEW_ANY
    else
      let r1 : Reason :=
        if prev_status.isSome ∧ cur_status.isSome then
          if prev_status = some CANCELLED ∧ (cur_status = some 0 ∨ cur_status = some 1) then
            .REOPENED_TO_SALE
          else if (prev_status = some 0 ∨ prev_status = some 1) ∧ cur_status = some CANCELLED then
            .CANCELLED
          else .NONE
        else .NONE
      if r1 = .NONE ∧ prev_status = none ∧ ¬(cur_status = none) then
        if email_new_accepted ∧ (cur_status = some 0 ∨ cur_status = some 1) then .NEW_ACCEPTED
        else if email_new_any then .NEW_ANY
        else .NONE
      else r1
  let m' : SMap :=
    match cur_status with
    | some n => mapSet m d.id (.num (n : ℚ))
    | none => if !(mapContains m d.id) then mapSet m d.id (.str "seen") else m
  (send_reason, m')

/-! ## The run loop and persistence (`main`, lines 596–715)

`status_map` is the in-memory dict; `persisted` is the contents of the
status file.  The loop body never calls `save_status_map`; the single
save happens after the loop (line 715). -/

structure MainState : Type where
  status_map : SMap
  persisted : SMap

/-- One iteration of the document loop: decide the reason and update the
in-memory map; the persisted file is untouched inside the loop. -/
def docStep (f1 f2 : Bool) (s : MainState) (d : TrackDoc) : MainState :=
  { status_map := (trackStep f1 f2 s.status_map d).2, persisted := s.persisted }

def runDocs (f1 f2 : Bool) (docs : List TrackDoc) (s : MainState) : MainState :=
  docs.foldl (docStep f1 f2) s

/-- The whole run over a deduplicated batch: load the status file once,
process every document, then write the map back once
(`save_status_map`, line 715). -/
def mainRun (f1 f2 : Bool) (docs : List TrackDoc) (p0 : SMap) : MainState :=
  let s := runDocs f1 f2 docs { status_map := p0, persisted := p0 }
  { status_map := s.status_map, persisted := s.status_map }

/-- Claim-side event function, written from the claim's words: the event
depends only on (previous status, current status, first-seen); first-seen
gives NEW, Cancelled→Pending/Accepted gives REOPENED,
Pending/Accepted→Cancelled gives CANCELLED, every other pair NONE. -/
def eventSpec (first_seen : Bool) (prev cur : Option ℤ) : Reason :=
  if first_seen then .NEW_ANY
  else if prev = some (-1) ∧ (cur = some 0 ∨ cur = some 1) then .REOPENED_TO_SALE
  else if (prev = some 0 ∨ prev = some 1) ∧ cur = some (-1) then .CANCELLED
  else .NONE

/-! ## Transport-name detection (`TRANSPORT_NAME_PATTERNS`,
`is_transport_name`, lines 194–209)

The eight fixed patterns only use literals, `\s*`, an optional
character and a two-character class, so they are represented as small
pattern-atom lists and matched with a backtracking full-matcher
(`re.match` with a `$`-terminated pattern on a stripped string is a
full match). -/

inductive Pat : Type
  | wsStar : Pat
  | ch (c : Char) : Pat
  | optC (c : Char) : Pat
  | altC (c₁ c₂ : Char) : Pat

/-- Literal as a run of single-character atoms. -/
def litP (s : String) : List Pat := s.data.map Pat.ch

/-- The `\s*` loop: try the continuation after consuming any number of
leading whitespace characters. -/
def wsLoop (k : List Char → Bool) : List Char → Bool
  | [] => k []
  | c :: cs' => k (c :: cs') || (isWsCh c && wsLoop k cs')

/-- Whole-input match of an atom list (existence semantics of the
backtracking regex engine). -/
def patMatch : List Pat → List Char → Bool
  | [], cs => cs.isEmpty
  | .wsStar :: ps, cs => wsLoop (patMatch ps) cs
  | .ch c :: ps, cs =>
    (match cs with
     | c' :: cs' => (c' = c) && patMatch ps cs'
     | [] => false)
  | .optC c :: ps, cs =>
    (match cs with
     | c' :: cs' => (c' = c) && patMatch ps cs'
     | [] => false) || patMatch ps cs
  | .altC c₁ c₂ :: ps, cs =>
    match cs with
    | c' :: cs' => ((c' = c₁) || (c' = c₂)) && patMatch ps cs'
    | [] => false

/-- The eight patterns of `TRANSPORT_NAME_PATTERNS`, in source order:
`transporte`, `shipping costs?`, `shipping`, `shipment`, `transport`,
`flete`, `portes?`, `env[ií]o`, each wrapped in `^\s* ... \s*$`. -/
def TRANSPORT_NAME_PATTERNS : List (List Pat) :=
  [ [Pat.wsStar] ++ litP "transporte" ++ [Pat.wsStar],
    [Pat.wsStar] ++ litP "shipping" ++ [Pat.wsStar] ++ litP "cost" ++ [Pat.optC 's', Pat.wsStar],
    [Pat.wsStar] ++ litP "shipping" ++ [Pat.wsStar],
    [Pat.wsStar] ++ litP "shipment" ++ [Pat.wsStar],
    [Pat.wsStar] ++ litP "transport" ++ [Pat.wsStar],
    [Pat.wsStar] ++ litP "flete" ++ [Pat.wsStar],
    [Pat.wsStar] ++ litP "porte" ++ [Pat.optC 's', Pat.wsStar],
    [Pat.wsStar] ++ litP "env" ++ [Pat.altC 'i' 'í'] ++ litP "o" ++ [Pat.wsStar] ]

/-- `is_transport_name(name)`: strip and lower-case, then try each fixed
pattern with `re.match` (anchored patterns ⇒ whole-string). -/
def is_transport_name (name : String) : Bool :=
  let n := pyLowerS (pyStripS name)
  TRANSPORT_NAME_PATTERNS.any (fun ps => patMatch ps n.data)

/-- `inspect_so.py`'s `is_transport_line(item)` (lines 47–50): exact name
`"transporte"`, tag `"transporte"`, or the SUBSTRING tests
`"envío" in name` / `"envio" in name`.  Tag values are the item's tag
strings (non-string tags would raise in the source). -/
def is_transport_line (item_name : JVal) (item_tags : List String) : Bool :=
  let name := pyLowerS (pyStripS (pyStrOrEmpty item_name))
  let tags := item_tags.map pyLowerS
  (name = "transporte") || tags.contains "transporte" ||
    isSubstrL "envío".data name.data || isSubstrL "envio".data name.data

/-! ## Salesperson inference (`SALESPERSON_TAGS`, `infer_salesperson`,
lines 211–224) -/

def SALESPERSON_TAGS : List (String × String) :=
  [("tomi", "Tomás"), ("canet", "Jorge"), ("supa", "Susana"), ("juanv", "Juan")]

def DEFAULT_SALESPERSON : String := "Juan"

/-- `norm_tags(t)`: a list gives `str(x).strip().lower()` per element, a
string gives a singleton, anything else the empty list. -/
def norm_tags : JVal → List String
  | .arr xs => xs.map (fun x => pyLowerS (pyStripS (pyStr x)))
  | .str s => [pyLowerS (pyStripS s)]
  | _ => []

/-- First tag with an entry in the fixed tag table. -/
def lookupTag (ts : List String) : Option String :=
  firstSome (ts.map (fun t => (SALESPERSON_TAGS.find? (fun kv => kv.1 = t)).map (·.2)))

/-- `infer_salesperson(line_tags, doc_tags)`: line tags first, then doc
tags, then the fixed default. -/
def infer_salesperson (line_tags doc_tags : JVal) : String :=
  match lookupTag (norm_tags line_tags) with
  | some n => n
  | none =>
    match lookupTag (norm_tags doc_tags) with
    | some n => n
    | none => DEFAULT_SALESPERSON

/-! ## Robust attribute extraction (`try_fields`, lines 227–251)

Per candidate key, four locations are tried in order — top level,
`attributes` sub-map, `customFields` as a map, `customFields` as a list
of `{field, value}` entries — each returning the first value that is
not `None`/`""`/`[]`.  (An `attributes` value that is itself a string
or list would make the source raise or do substring membership; such
records are outside the modelled input space.) -/

/-- Lookup in the `customFields` list-of-entries form: first dict entry
whose `field` equals the key and whose `value` is non-empty. -/
def cfEntryLookup : List JVal → String → Option JVal
  | [], _ => none
  | e :: rest, key =>
    match e with
    | .obj efs =>
      (match mapGet? efs "field" with
       | some (.str f) =>
         if f = key then
           match mapGet? efs "value" with
           | some v => if jNotEmpty v then some v else cfEntryLookup rest key
           | none => cfEntryLookup rest key
         else cfEntryLookup rest key
       | _ => cfEntryLookup rest key)
    | _ => cfEntryLookup rest key

/-- Non-empty lookup of one key in one object (shared by the first three
locations of `try_fields`). -/
def lookupNonEmpty (fs : List (String × JVal)) (key : String) : Option JVal :=
  match mapGet? fs key with
  | some v => if jNotEmpty v then some v else none
  | none => none

/-- The body of `try_fields` for a single candidate key. -/
def tryFieldAt (fs : List (String × JVal)) (key : String) : Option JVal :=
  match lookupNonEmpty fs key with
  | some v => some v
  | none =>
    let attrsV := (mapGet? fs "attributes").getD .null
    let attrs := if pyTruthy attrsV then attrsV else .obj []
    let fromAttrs :=
      match attrs with
      | .obj afs => lookupNonEmpty afs key
      | _ => none
    match fromAttrs with
    | some v => some v
    | none =>
      let cfs := (mapGet? fs "customFields").getD .null
      let fromMap :=
        match cfs with
        | .obj cfsFs => lookupNonEmpty cfsFs key
        | _ => none
      match fromMap with
      | some v => some v
      | none =>
        match cfs with
        | .arr entries => cfEntryLookup entries key
        | _ => none

def tryFieldsGo (fs : List (String × JVal)) : List String → Option JVal
  | [] => none
  | k :: ks =>
    match tryFieldAt fs k with
    | some v => some v
    | none => tryFieldsGo fs ks

/-- `try_fields(container, candidates)`: `None` when the container is not
a dict; otherwise the first candidate key with a non-empty value in one
of the four locations. -/
def try_fields (container : JVal) (candidates : List String) : Option JVal :=
  match container with
  | .obj fs => tryFieldsGo fs candidates
  | _ => none

/-! ## Power extraction (`extract_power_w`, lines 253–274)

The two scans are `re.findall` of
`(?<!\d)(\d{3,4})\s*[Ww]\s*(?:[Pp])?`  (marked numbers)  and
`(?<!\d)(\d{3,4})(?!\d)`               (bare numbers),
implemented as left-to-right non-overlapping scanners that track the
character before the current position for the lookbehind. -/

/-- Exactly `k` leading digits: the digit group and the rest. -/
def takeDigits (k : ℕ) (cs : List Char) : Option (List Char × List Char) :=
  if (cs.take k).length = k ∧ (cs.take k).all isDigitCh
  then some (cs.take k, cs.drop k) else none

/-- After the digit group of the marked pattern: `\s*[Ww]\s*(?:[Pp])?`.
Returns (captured value, last consumed char, rest of input); a
successful tail never lengthens the input. -/
def markedTail (ds : List Char) (rest : List Char) : Option (ℕ × Char × List Char) :=
  match rest.dropWhile isWsCh with
  | c :: r2 =>
    if c = 'W' ∨ c = 'w' then
      match r2.dropWhile isWsCh with
      | p :: r4 =>
        if p = 'P' ∨ p = 'p' then some (digitsToNat ds, p, r4)
        else some (digitsToNat ds, (c :: r2.takeWhile isWsCh).getLastD c, p :: r4)
      | [] => some (digitsToNat ds, (c :: r2.takeWhile isWsCh).getLastD c, [])
    else none
  | [] => none

/-- One match attempt of the marked pattern at the current position
(greedy: four digits first, then three). -/
def tryMarkedAt (cs : List Char) : Option (ℕ × Char × List Char) :=
  match takeDigits 4 cs with
  | some (ds, rest) =>
    (match markedTail ds rest with
     | some r => some r
     | none =>
       match takeDigits 3 cs with
       | some (ds3, rest3) => markedTail ds3 rest3
       | none => none)
  | none =>
    match takeDigits 3 cs with
    | some (ds3, rest3) => markedTail ds3 rest3
    | none => none

/-- `re.findall` of the marked pattern: captured numbers, left to right,
non-overlapping; `prev` is the character before the current position
(for the `(?<!\d)` lookbehind), `none` at the start of the string.
The fuel counter starts at the input length; every step consumes at
least one character (a match consumes its ≥3 digits), so the fuel never
runs out before the input does. -/
def scanMarkedFuel : ℕ → Option Char → List Char → List ℕ
  | 0, _, _ => []
  | _ + 1, _, [] => []
  | fuel + 1, prev, c :: cs' =>
    if (match prev with | some p => isDigitCh p | none => false) then
      scanMarkedFuel fuel (some c) cs'
    else
      match tryMarkedAt (c :: cs') with
      | some (n, lc, rest) => n :: scanMarkedFuel fuel (some lc) rest
      | none => scanMarkedFuel fuel (some c) cs'

def scanMarked (prev : Option Char) (cs : List Char) : List ℕ :=
  scanMarkedFuel cs.length prev cs

/-- Next character is not a digit (or end of input): the `(?!\d)`
lookahead of the bare pattern. -/
def nextNotDigit : List Char → Bool
  | [] => true
  | c :: _ => !isDigitCh c

/-- One match attempt of the bare pattern `(?<!\d)(\d{3,4})(?!\d)`
(greedy: four digits first, then backtrack to three). -/
def tryBareAt (cs : List Char) : Option (ℕ × Char × List Char) :=
  match takeDigits 4 cs with
  | some (ds, rest) =>
    if nextNotDigit rest then some (digitsToNat ds, ds.getLastD '0', rest)
    else
      match takeDigits 3 cs with
      | some (ds3, rest3) =>
        if nextNotDigit rest3 then some (digitsToNat ds3, ds3.getLastD '0', rest3) else none
      | none => none
  | none =>
    match takeDigits 3 cs with
    | some (ds3, rest3) =>
      if nextNotDigit rest3 then some (digitsToNat ds3, ds3.getLastD '0', rest3) else none
    | none => none

/-- `re.findall` of the bare pattern, fueled like `scanMarkedFuel`. -/
def scanBareFuel : ℕ → Option Char → List Char → List ℕ
  | 0, _, _ => []
  | _ + 1, _, [] => []
  | fuel + 1, prev, c :: cs' =>
    if (match prev with | some p => isDigitCh p | none => false) then
      scanBareFuel fuel (some c) cs'
    else
      match tryBareAt (c :: cs') with
      | some (n, lc, rest) => n :: scanBareFuel fuel (some lc) rest
      | none => scanBareFuel fuel (some c) cs'

def scanBare (prev : Option Char) (cs : List Char) : List ℕ :=
  scanBareFuel cs.length prev cs

/-- Marked candidates of one text, filtered to the 300–1000 range. -/
def markedCands (txt : String) : List ℕ :=
  (scanMarked none txt.data).filter (fun n => 300 ≤ n ∧ n ≤ 1000)

/-- Bare candidates of one text, filtered to the 300–1000 range. -/
def bareCands (txt : String) : List ℕ :=
  (scanBare none txt.data).filter (fun n => 300 ≤ n ∧ n ≤ 1000)

def POWER_KEYS : List String := ["power_w", "Potencia", "potencia_w", "power", "watt", "W"]

/-- `str(try_fields(product, ["name"]) or "")`. -/
def prodNameText (product : JVal) : String :=
  match try_fields product ["name"] with
  | some v => pyStrOrEmpty v
  | none => ""

/-- `str(try_fields(product, ["sku"]) or "")`. -/
def prodSkuText (product : JVal) : String :=
  match try_fields product ["sku"] with
  | some v => pyStrOrEmpty v
  | none => ""

/-- The four texts scanned by `extract_power_w`: line name, line SKU,
product name, product SKU. -/
def powerTexts (product : JVal) (item_name item_sku : String) : List String :=
  [item_name, item_sku, prodNameText product, prodSkuText product]

/-- Per-text first-match loop of the marked scan: the source returns from
the FIRST text whose in-range candidate list is nonempty. -/
def firstMarkedMax : List String → Option ℕ
  | [] => none
  | t :: ts =>
    match (markedCands t).max? with
    | some m => some m
    | none => firstMarkedMax ts

/-- `extract_power_w(product, item_name, item_sku)`. -/
def extract_power_w (product : JVal) (item_name item_sku : String) : ℚ :=
  match (try_fields product POWER_KEYS).bind pyFloat? with
  | some q => q
  | none =>
    let texts := powerTexts product item_name item_sku
    match firstMarkedMax texts with
    | some n => (n : ℚ)
    | none =>
      let generic := texts.foldl (fun acc txt => acc ++ bareCands txt) []
      match generic.max? with
      | some m => (m : ℚ)
      | none => 0

/-! ## Units per pallet (`extract_units_per_pallet`,
`hint_units_per_pallet_by_pattern`, `infer_units_per_pallet`,
lines 276–284 and 326–354) -/

def UPP_KEYS : List String :=
  ["units_per_pallet", "unitsPerPallet", "pallet_units", "ud_pallet", "uds_pallet", "unitsPallet"]

/-- `extract_units_per_pallet(product)`: attribute lookup, `float(...)`
with `except → 0.0` (also when the lookup yields `None`). -/
def extract_units_per_pallet (product : JVal) : ℚ :=
  match (try_fields product UPP_KEYS).bind pyFloat? with
  | some q => q
  | none => 0

/-- `re.search("AIKO.*MAH72M", text, IGNORECASE)`: somewhere in the
(lower-folded) text, `aiko` followed — with no newline in between, as
`.` does not match `\n` — by `mah72m`. `findNoNL` looks for the second
literal without crossing a newline. -/
def findNoNL (pat : List Char) : List Char → Bool
  | [] => startsWithL pat []
  | c :: cs => startsWithL pat (c :: cs) || (!(c = '\n') && findNoNL pat cs)

def searchAikoMah (cs : List Char) : Bool :=
  match cs with
  | [] => false
  | c :: cs' =>
    (startsWithL "aiko".data (c :: cs') && findNoNL "mah72m".data (cs'.drop 3)) ||
      searchAikoMah cs'

/-- Inner search of `AIKO.*\b605\b`: find `605` with word boundaries on
both sides, not crossing a newline; `prev` is the character before the
current position (the last char of `aiko`, i.e. `o`, at the start). -/
def find605Bounded (prev : Char) : List Char → Bool
  | [] => false
  | c :: cs =>
    (startsWithL "605".data (c :: cs) && !isWordCh prev &&
      (match (c :: cs).drop 3 with
       | [] => true
       | d :: _ => !isWordCh d)) ||
    (!(c = '\n') && find605Bounded c cs)

/-- `re.search("AIKO.*\b605\b", text, IGNORECASE)` on lower-folded text. -/
def searchAiko605 (cs : List Char) : Bool :=
  match cs with
  | [] => false
  | c :: cs' =>
    (startsWithL "aiko".data (c :: cs') && find605Bounded 'o' (cs'.drop 3)) ||
      searchAiko605 cs'

/-- The fixed `PACK_RULES` table: (pattern, value) pairs tried in order. -/
inductive PackPat : Type
  | aikoMah : PackPat
  | aiko605 : PackPat

def packPatMatch (p : PackPat) (text : String) : Bool :=
  match p with
  | .aikoMah => searchAikoMah (pyLowerL text.data)
  | .aiko605 => searchAiko605 (pyLowerL text.data)

def PACK_RULES : List (PackPat × ℤ) := [(.aikoMah, 36), (.aiko605, 36)]

/-- `hint_units_per_pallet_by_pattern(name, sku, product)`: first rule
whose pattern matches the space-joined text of name, sku, product name
and product sku. -/
def hint_units_per_pallet_by_pattern (name sku : String) (product : JVal) : ℚ :=
  let text := name ++ " " ++ sku ++ " " ++ pyStrOrEmpty (jGet product "name")
      ++ " " ++ pyStrOrEmpty (jGet product "sku")
  match PACK_RULES.find? (fun pr => packPatMatch pr.1 text) with
  | some pr => (pr.2 : ℚ)
  | none => 0

def POSSIBLE_PACK_SIZES : List ℤ := [36, 37, 35, 33, 31, 30]

/-- One step of the closest-fit loop: `rem = qty % p`,
`score = (rem, -p)`, keep the accumulator unless the score is strictly
smaller (tuple order: smaller remainder, then larger pack size). -/
def closestStep (qty : ℤ) (acc : Option (ℤ × ℤ)) (p : ℤ) : Option (ℤ × ℤ) :=
  let rem := qty.emod p
  match acc with
  | none => some (p, rem)
  | some (bp, bl) => if rem < bl ∨ (rem = bl ∧ bp < p) then some (p, rem) else some (bp, bl)

/-- `infer_units_per_pallet(product, name, sku, qty)` →
(units per pallet, confidence, alternatives, leftover).
`%` is applied with a positive modulus in every branch reached, where
Python's floor-mod is `Int.emod` on ints and `pyModQ` on floats;
`int(best_leftover or 0)` in the closest branch is the identity
(the leftover is an int, and `or 0` maps 0 to 0). -/
def infer_units_per_pallet (product : JVal) (name sku : String) (qty : ℤ) :
    ℚ × String × List ℤ × ℤ :=
  let upp := extract_units_per_pallet product
  if upp > 0 then
    let leftover := if qty ≠ 0 ∧ upp ≠ 0 then pyModQ (qty : ℚ) upp else 0
    (upp, "attr", [], pyIntOfFloat leftover)
  else
    let upp2 := hint_units_per_pallet_by_pattern name sku product
    if upp2 > 0 then
      let leftover := if qty ≠ 0 ∧ upp2 ≠ 0 then pyModQ (qty : ℚ) upp2 else 0
      (upp2, "pattern", [], pyIntOfFloat leftover)
    else if qty ≠ 0 then
      let exact := POSSIBLE_PACK_SIZES.filter (fun p => qty.emod p = 0)
      if exact.length = 1 then ((exact.headD 0 : ℚ), "divisible", [], 0)
      else if 1 < exact.length then
        let preferred := if (36 : ℤ) ∈ exact then 36 else (exact.max?).getD 0
        ((preferred : ℚ), "ambiguous_divisible", exact.filter (fun p => p ≠ preferred), 0)
      else
        match POSSIBLE_PACK_SIZES.foldl (closestStep qty) none with
        | some (bp, bl) => ((bp : ℚ), "closest", [], bl)
        | none => (0, "closest", [], 0)
    else (0, "unknown", [], 0)

/-! ## Price per watt (`compute_price_per_w`, lines 286–289) -/

/-- `compute_price_per_w(line_amount, qty, power_w)`: guarded division,
0 when quantity or power is falsy (zero). -/
def compute_price_per_w (line_amount qty power_w : ℚ) : ℚ :=
  if ¬(qty = 0) ∧ ¬(power_w = 0) then line_amount / (qty * power_w) else 0

/-! ## Documents, lines and rows (`iter_document_lines`,
`extract_transport_amount_from_doc`, `build_row`, main lines 616–622)

A raw document's engine-relevant fields are lifted to a structure;
`products` is `doc.get("products") or []` (each element a JSON object).
The date label (`to_date_label`, pure display formatting through the
OS timezone database) is not modelled; no claim concerns it. -/

structure RawDoc : Type where
  id : String
  status : JVal := .null
  contactName : JVal := .null
  products : List JVal := []
  tags : JVal := .null

/-- One normalized line of `iter_document_lines`. -/
structure Line : Type where
  name : String
  desc : JVal
  qty : ℚ
  unit_price : ℚ
  amount : ℚ
  productId : JVal
  sku : String
  is_transport : Bool
  tags : JVal

/-- `iter_document_lines` body for one element of `doc["products"]`. -/
def line_of_item (it : JVal) : Line :=
  let name := pyStripS (pyStrOrEmpty (jGet it "name"))
  { name := name
    desc := jGet it "desc"
    qty := pyFloatOr0 (jGet it "units")
    unit_price := pyFloatOr0 (jGet it "price")
    amount := pyFloatOr0 (jGet it "price") * pyFloatOr0 (jGet it "units")
    productId := jGet it "productId"
    sku := (match jGet it "sku" with | .null => "" | v => pyStr v)
    is_transport := is_transport_name name
    tags := (let t := jGet it "tags"; if pyTruthy t then t else .arr []) }

def iter_document_lines (doc : RawDoc) : List Line :=
  doc.products.map line_of_item

/-- `extract_transport_amount_from_doc(doc)`: accumulate
`price * units` over lines whose name is a transport name; `none`
models the `"-"` sentinel returned when no transport line was found. -/
def extract_transport_amount_from_doc (doc : RawDoc) : Option ℚ :=
  let r := doc.products.foldl
    (fun (acc : ℚ × Bool) p =>
      if is_transport_name (pyStrOrEmpty (jGet p "name")) then
        (acc.1 + pyFloatOr0 (jGet p "price") * pyFloatOr0 (jGet p "units"), true)
      else acc)
    (0, false)
  if r.2 then some r.1 else none

def has_transport_line (doc : RawDoc) : Bool :=
  doc.products.any (fun p => is_transport_name (pyStrOrEmpty (jGet p "name")))

/-- A normalized output row (`build_row`'s dict).  `potencia = none` and
`transporte = none` model the `"-"` sentinels; the date label is not
modelled (display only). -/
structure Row : Type where
  material : String
  potencia : Option ℤ
  cantidad : ℤ
  pallets_display : String
  pallets_num : ℤ
  cliente : String
  precio_valor : ℚ
  precio_unidad : String
  precio_decs : ℕ
  transporte : Option ℚ
  comercial : String

/-- `build_row(doc, line, fetch_product=...)`.  Product fetching is I/O:
the fetched record is passed in directly (`JVal.obj []`, Python `{}`,
when fetching is off, the line has no product id, or the fetch fails). -/
def build_row (doc : RawDoc) (line : Line) (product : JVal) : Row :=
  let cliente := pyStrOrDash doc.contactName
  let item_name := if line.name = "" then "-" else line.name
  let qty := line.qty
  let amount := line.amount
  let power_w := extract_power_w product item_name line.sku
  let palletsInfo : String × ℤ :=
    if ¬(power_w = 0) then
      let r := infer_units_per_pallet product item_name line.sku (pyIntOfFloat qty)
      let upp := r.1
      let leftover := r.2.2.2
      if qty > 0 ∧ upp > 0 then
        let pallets : ℤ := ⌈qty / upp⌉
        (if ¬(leftover = 0)
         then toString pallets ++ " (+" ++ toString leftover ++ ")"
         else toString pallets, pallets)
      else ("-", 0)
    else ("-", 0)
  let price : ℚ × String × ℕ :=
    if ¬(power_w = 0) then (compute_price_per_w amount qty power_w, "€/W", 4)
    else (line.unit_price, "€/ud", 2)
  { material := item_name
    potencia := if ¬(power_w = 0) then some (pyIntOfFloat power_w) else none
    cantidad := pyIntOfFloat qty
    pallets_display := palletsInfo.1
    pallets_num := palletsInfo.2
    cliente := cliente
    precio_valor := price.1
    precio_unidad := price.2.1
    precio_decs := price.2.2
    transporte := none
    comercial := infer_salesperson line.tags doc.tags }

/-- Lines 616–622 of `main` for one document: build a row per
non-transport line, then attach the document transport amount to the
first row and the `"-"` sentinel to every other row.  `prodOf` is the
per-line product oracle (see `build_row`). -/
def doc_material_rows (doc : RawDoc) (prodOf : Line → JVal) : List Row :=
  let lines := iter_document_lines doc
  let material_lines := lines.filter (fun ln => !ln.is_transport)
  let rows := material_lines.map (fun ln => build_row doc ln (prodOf ln))
  let transp := extract_transport_amount_from_doc doc
  rows.enum.map (fun ir => { ir.2 with transporte := if ir.1 = 0 then transp else none })

/-! ## Concrete documents used by scenario conjuncts, witnesses and
counterexamples -/

/-- The spec's scenario line: name "Panel 605W", units 40, price 100,
no product reference. -/
def item605 : JVal := .obj [("name", .str "Panel 605W"), ("units", .num 40), ("price", .num 100)]

def doc605 : RawDoc := { id := "D1", contactName := .str "ACME", products := [item605] }

def line605 : Line := line_of_item item605

/-- The pack-inference scenario: quantity 72, no attribute, no pattern. -/
def item72 : JVal := .obj [("name", .str "Panel 605W"), ("units", .num 72), ("price", .num 100)]

def doc72 : RawDoc := { id := "D2", products := [item72] }

/-- A document with two material lines around one transport line. -/
def docWithTransport : RawDoc :=
  { id := "D3", products :=
    [ .obj [("name", .str "Panel 605W"), ("units", .num 40), ("price", .num 100)],
      .obj [("name", .str "Transporte"), ("units", .num 1), ("price", .num 250)],
      .obj [("name", .str "Panel 400W"), ("units", .num 10), ("price", .num 50)] ] }

/-- A product record carrying a negative direct power attribute. -/
def prodNegPower : JVal := .obj [("power_w", .num (-500))]

/-- A nameless line (its row name falls back to "-"). -/
def itemNoName : JVal := .obj [("units", .num 2), ("price", .num 10)]

def docPlain : RawDoc := { id := "D4" }

/-- Spec-side transport sum: "sum price×quantity over all lines
classified as transport in the parent document". -/
def transportSumSpec (doc : RawDoc) : ℚ :=
  ((doc.products.filter (fun p => is_transport_name (pyStrOrEmpty (jGet p "name")))).map
    (fun p => pyFloatOr0 (jGet p "price") * pyFloatOr0 (jGet p "units"))).sum

/-! ## Claim-side predicates for the transport-name claim -/

def wsOnly (cs : List Char) : Bool := cs.all isWsCh

/-- "The trimmed, lower-cased name matches the anchored pattern
`^\s* LIT \s*$` as a whole string", stated declaratively. -/
def WholeLit (s : String) (cs : List Char) : Prop :=
  ∃ w1 w2, wsOnly w1 = true ∧ wsOnly w2 = true ∧ cs = w1 ++ (s.data ++ w2)

/-- Whole-string form of `^\s*shipping\s*costs?\s*$`. -/
def WholeShippingCost (cs : List Char) : Prop :=
  ∃ w1 wm w2, wsOnly w1 = true ∧ wsOnly wm = true ∧ wsOnly w2 = true ∧
    (cs = w1 ++ ("shipping".data ++ (wm ++ ("cost".data ++ w2))) ∨
     cs = w1 ++ ("shipping".data ++ (wm ++ ("costs".data ++ w2))))

/-- "Matches one of the fixed transport patterns as a whole string",
one disjunct per source pattern, in source order. -/
def TransportWholeWS (cs : List Char) : Prop :=
  WholeLit "transporte" cs ∨ WholeShippingCost cs ∨ WholeLit "shipping" cs ∨
  WholeLit "shipment" cs ∨ WholeLit "transport" cs ∨ WholeLit "flete" cs ∨
  (WholeLit "porte" cs ∨ WholeLit "portes" cs) ∨
  (WholeLit "envío" cs ∨ WholeLit "envio" cs)

/-! # Theorems -/

/-! ## Map lemmas -/

theorem mapGet?_mapSet_self (m : SMap) (k : String) (v : JVal) :
    mapGet? (mapSet m k v) k = some v := by
  induction m with
  | nil => simp [mapSet, mapGet?]
  | cons kv rest ih =>
    by_cases h : kv.1 = k
    · simp [mapSet, h, mapGet?]
    · simp [mapSet, h, mapGet?, ih]

theorem mapSet_idem (m : SMap) (k : String) (v : JVal)
    (h : mapGet? m k = some v) : mapSet m k v = m := by
  induction m with
  | nil => simp [mapGet?] at h
  | cons kv rest ih =>
    obtain ⟨a, b⟩ := kv
    by_cases hk : a = k
    · simp [mapGet?, hk] at h
      simp [mapSet, hk, h]
    · simp [mapGet?, hk] at h
      simp [mapSet, hk, ih h]

theorem mapGet?_mapSet_cases (m : SMap) (k k' : String) (v w : JVal)
    (h : mapGet? (mapSet m k v) k' = some w) :
    mapGet? m k' = some w ∨ w = v := by
  induction m with
  | nil =>
    simp [mapSet, mapGet?] at h
    exact Or.inr h.2.symm
  | cons kv rest ih =>
    by_cases hk : kv.1 = k
    · rw [mapSet, if_pos hk] at h
      by_cases hk' : k = k'
      · rw [mapGet?, if_pos hk'] at h
        right; exact (Option.some.injEq _ _ ▸ h).symm
      · rw [mapGet?, if_neg hk'] at h
        left
        rw [mapGet?, if_neg (hk ▸ hk')]
        exact h
    · rw [mapSet, if_neg hk] at h
      by_cases hk' : kv.1 = k'
      · rw [mapGet?, if_pos hk'] at h
        left; rw [mapGet?, if_pos hk']; exact h
      · rw [mapGet?, if_neg hk'] at h
        rw [mapGet?, if_neg hk']
        exact ih h

theorem mapContains_of_get (m : SMap) (k : String) (v : JVal)
    (h : mapGet? m k = some v) : mapContains m k = true := by
  simp [mapContains, h]

/-! ## Normalization lemmas -/

theorem normalize_status_range (v : JVal) (n : ℤ)
    (h : normalize_status v = some n) : n = 0 ∨ n = 1 ∨ n = -1 := by
  unfold normalize_status at h
  rcases hp : pyInt? v with _ | m <;> rw [hp] at h
  · simp at h
  · simp only [] at h
    split_ifs at h <;> simp_all

theorem pyInt?_intCast (n : ℤ) : pyInt? (.num (n : ℚ)) = some n := by
  simp [pyInt?, Rat.num_intCast, Rat.den_intCast, Int.tdiv_one]

theorem normalize_status_num_self (n : ℤ) (h : n = 0 ∨ n = 1 ∨ n = -1) :
    normalize_status (.num (n : ℚ)) = some n := by
  unfold normalize_status
  rw [pyInt?_intCast]
  rcases h with rfl | rfl | rfl <;> simp

/-! ## Step characterization lemmas for the tracker -/

theorem trackStep_seen_none (m : SMap) (d : TrackDoc)
    (hc : mapContains m d.id = true)
    (hcur : normalize_status d.status = none)
    (hprev : normalize_status ((mapGet? m d.id).getD .null) = none) :
    trackStep false false m d = (Reason.NONE, m) := by
  simp only [trackStep, hcur, hprev, hc]
  simp

theorem trackStep_seen_same (m : SMap) (d : TrackDoc) (n : ℤ)
    (hc : mapContains m d.id = true)
    (hcur : normalize_status d.status = some n)
    (hprev : normalize_status ((mapGet? m d.id).getD .null) = some n) :
    trackStep false false m d = (Reason.NONE, mapSet m d.id (.num (n : ℚ))) := by
  have hr := normalize_status_range d.status n hcur
  simp only [trackStep, hcur, hprev, hc]
  rcases hr with rfl | rfl | rfl <;> simp [CANCELLED]

/-- Claim C1: for every observed document, the lifecycle event is a
function of (previous status, current status, first-seen); status
normalization keeps 0, 1 and -1, maps 2 to Cancelled (-1) and any other
raw value to unrecognized; a first-seen id yields NEW regardless of
status; otherwise Cancelled→Pending/Accepted yields REOPENED,
Pending/Accepted→Cancelled yields CANCELLED, and every other pair
(including Pending↔Accepted) yields NONE. -/
theorem status_event_is_function :
    (∀ v : JVal, normalize_status v =
      (pyInt? v).bind (fun n =>
        if n = 0 ∨ n = 1 ∨ n = -1 then some n
        else if n = 2 then some (-1) else none)) ∧
    (∀ (m : SMap) (d : TrackDoc),
      (trackStep false false m d).1 =
        eventSpec (!(mapContains m d.id))
          (normalize_status ((mapGet? m d.id).getD .null))
          (normalize_status d.status)) := by
  constructor
  · intro v
    unfold normalize_status
    rcases hp : pyInt? v with _ | m
    · simp
    · simp only [Option.some_bind]
      split_ifs <;> simp_all
  · intro m d
    simp only [trackStep, eventSpec, CANCELLED]
    by_cases hc : mapContains m d.id <;>
      rcases hprev : normalize_status ((mapGet? m d.id).getD .null) with _ | p <;>
        rcases hcur : normalize_status d.status with _ | c <;>
          simp [hc, hprev, hcur]

/-- Claim C8: observing an already-tracked order id again with an
unchanged normalized status yields event NONE, and the StatusMap after
the repeated observation is identical to the StatusMap after the first
observation. -/
theorem repeated_observation_idempotent (m : SMap) (d : TrackDoc)
    (h1 : mapContains m d.id = true)
    (h2 : normalize_status ((mapGet? m d.id).getD .null) = normalize_status d.status) :
    (trackStep false false m d).1 = Reason.NONE ∧
    (trackStep false false (trackStep false false m d).2 d).1 = Reason.NONE ∧
    (trackStep false false (trackStep false false m d).2 d).2 = (trackStep false false m d).2 := by
  rcases hcur : normalize_status d.status with _ | n
  · rw [hcur] at h2
    have hstep := trackStep_seen_none m d h1 hcur h2
    simp [hstep]
  · rw [hcur] at h2
    have hstep := trackStep_seen_same m d n h1 hcur h2
    have hr := normalize_status_range d.status n hcur
    have hget : mapGet? (mapSet m d.id (.num (n : ℚ))) d.id = some (.num (n : ℚ)) :=
      mapGet?_mapSet_self m d.id _
    have hc2 : mapContains (mapSet m d.id (.num (n : ℚ))) d.id = true :=
      mapContains_of_get _ _ _ hget
    have hprev2 : normalize_status ((mapGet? (mapSet m d.id (.num (n : ℚ))) d.id).getD .null)
        = some n := by
      rw [hget]
      exact normalize_status_num_self n hr
    have hstep2 := trackStep_seen_same (mapSet m d.id (.num (n : ℚ))) d n hc2 hcur hprev2
    have hidem := mapSet_idem (mapSet m d.id (.num (n : ℚ))) d.id (.num (n : ℚ)) hget
    simp [hstep, hstep2, hidem]

/-- Claim C10: every value the run stores into the StatusMap is one of
0, 1, -1 or "seen"; normalize_status is the identity on 0, 1 and -1 and
maps "seen" to unrecognized, so a persisted status is re-interpreted
with the same meaning in a later run. -/
theorem stored_values_wellformed (f1 f2 : Bool) :
    (∀ (m : SMap) (d : TrackDoc) (k : String) (v : JVal),
        mapGet? (trackStep f1 f2 m d).2 k = some v →
        mapGet? m k = some v ∨ v = .num 0 ∨ v = .num 1 ∨ v = .num (-1) ∨ v = .str "seen") ∧
    (∀ (docs : List TrackDoc) (s : MainState) (k : String) (v : JVal),
        mapGet? (runDocs f1 f2 docs s).status_map k = some v →
        mapGet? s.status_map k = some v ∨ v = .num 0 ∨ v = .num 1 ∨ v = .num (-1) ∨ v = .str "seen") ∧
    normalize_status (.num 0) = some 0 ∧ normalize_status (.num 1) = some 1 ∧
    normalize_status (.num (-1)) = some (-1) ∧ normalize_status (.str "seen") = none := by
  have step : ∀ (m : SMap) (d : TrackDoc) (k : String) (v : JVal),
      mapGet? (trackStep f1 f2 m d).2 k = some v →
      mapGet? m k = some v ∨ v = .num 0 ∨ v = .num 1 ∨ v = .num (-1) ∨ v = .str "seen" := by
    intro m d k v h
    simp only [trackStep] at h
    rcases hcur : normalize_status d.status with _ | n <;> rw [hcur] at h <;>
      simp only [] at h
    · split_ifs at h with hfs
      · rcases mapGet?_mapSet_cases m d.id k (.str "seen") v h with hl | rfl
        · exact Or.inl hl
        · simp
      · exact Or.inl h
    · have hr := normalize_status_range d.status n hcur
      rcases mapGet?_mapSet_cases m d.id k (.num (n : ℚ)) v h with hl | rfl
      · exact Or.inl hl
      · rcases hr with rfl | rfl | rfl <;> simp
  refine ⟨step, ?_, by decide, by decide, by decide, by decide⟩
  intro docs
  induction docs with
  | nil => intro s k v h; exact Or.inl h
  | cons d ds ih =>
    intro s k v h
    have h2 := ih (docStep f1 f2 s d) k v h
    rcases h2 with hl | hother
    · exact step s.status_map d k v hl
    · exact Or.inr hother

/-- Claim C2 (counterexample): mid-run — after the only document of the
batch has had its action decided and the in-memory map updated — the
persisted map still lacks the processed order id, refuting "written
back incrementally after each document's notification decision". -/
theorem persisted_mid_run_missing :
    mapGet? (runDocs false false [⟨"A1", JVal.num 0⟩] ⟨[], []⟩).status_map "A1"
        = some (JVal.num 0) ∧
    mapGet? (runDocs false false [⟨"A1", JVal.num 0⟩] ⟨[], []⟩).persisted "A1" = none := by
  constructor <;> rfl

/-- Claim C2 (amended): the in-memory StatusMap is updated after each
document's notification decision, but the status file is written only
once, after the whole batch: every mid-run state keeps the initially
loaded persisted map, and the final save persists the fully updated
map. -/
theorem persisted_only_at_end :
    (∀ (f1 f2 : Bool) (docs : List TrackDoc) (m0 p0 : SMap),
        (runDocs f1 f2 docs ⟨m0, p0⟩).persisted = p0) ∧
    (∀ (f1 f2 : Bool) (docs : List TrackDoc) (p0 : SMap),
        (mainRun f1 f2 docs p0).persisted = (runDocs f1 f2 docs ⟨p0, p0⟩).status_map) := by
  constructor
  · intro f1 f2 docs
    induction docs with
    | nil => intro m0 p0; rfl
    | cons d ds ih => intro m0 p0; exact ih _ p0
  · intro f1 f2 docs p0
    rfl

/-- Witness for C8 at a concrete map and document. -/
theorem repeated_observation_idempotent_witness :
    (trackStep false false [("A1", JVal.num 1)] ⟨"A1", JVal.num 1⟩).1 = Reason.NONE ∧
    (trackStep false false (trackStep false false [("A1", JVal.num 1)] ⟨"A1", JVal.num 1⟩).2
        ⟨"A1", JVal.num 1⟩).1 = Reason.NONE ∧
    (trackStep false false (trackStep false false [("A1", JVal.num 1)] ⟨"A1", JVal.num 1⟩).2
        ⟨"A1", JVal.num 1⟩).2 = (trackStep false false [("A1", JVal.num 1)] ⟨"A1", JVal.num 1⟩).2 :=
  repeated_observation_idempotent [("A1", JVal.num 1)] ⟨"A1", JVal.num 1⟩ rfl rfl

/-- Witness for C10 at a concrete map and document (an unparseable
status on a first-seen id stores the "seen" marker). -/
theorem stored_values_wellformed_witness :
    mapGet? ([] : SMap) "A1" = some (JVal.str "seen") ∨ JVal.str "seen" = JVal.num 0 ∨
    JVal.str "seen" = JVal.num 1 ∨ JVal.str "seen" = JVal.num (-1) ∨
    JVal.str "seen" = JVal.str "seen" :=
  (stored_values_wellformed false false).1 [] ⟨"A1", JVal.str "oops"⟩ "A1" (JVal.str "seen") rfl

/-! ## Pattern-language lemmas for the transport classifier -/

theorem wsLoop_iff (k : List Char → Bool) (cs : List Char) : wsLoop k cs = true ↔
    ∃ w r, wsOnly w = true ∧ cs = w ++ r ∧ k r = true := by
  induction cs with
  | nil =>
    simp only [wsLoop]
    constructor
    · intro h
      exact ⟨[], [], rfl, rfl, h⟩
    · rintro ⟨w, r, hw, he, hk⟩
      obtain ⟨rfl, rfl⟩ := List.append_eq_nil.mp he.symm
      exact hk
  | cons c cs' ih =>
    simp only [wsLoop, Bool.or_eq_true, Bool.and_eq_true, ih]
    constructor
    · rintro (h | ⟨hws, w, r, hw, rfl, hk⟩)
      · exact ⟨[], c :: cs', rfl, rfl, h⟩
      · refine ⟨c :: w, r, ?_, rfl, hk⟩
        simp only [wsOnly, List.all_cons, Bool.and_eq_true]
        exact ⟨hws, hw⟩
    · rintro ⟨w, r, hw, he, hk⟩
      cases w with
      | nil =>
        rw [List.nil_append] at he
        exact Or.inl (he ▸ hk)
      | cons c' w' =>
        rw [List.cons_append] at he
        injection he with h1 h2
        subst h1
        simp only [wsOnly, List.all_cons, Bool.and_eq_true] at hw
        exact Or.inr ⟨hw.1, w', r, hw.2, h2, hk⟩

theorem patMatch_nil_iff (cs : List Char) : patMatch [] cs = true ↔ cs = [] := by
  cases cs <;> simp [patMatch]

theorem patMatch_wsEnd (cs : List Char) : patMatch [Pat.wsStar] cs = true ↔ wsOnly cs = true := by
  have h0 : patMatch [Pat.wsStar] cs = wsLoop (patMatch []) cs := rfl
  rw [h0, wsLoop_iff]
  constructor
  · rintro ⟨w, r, hw, rfl, hk⟩
    rw [patMatch_nil_iff] at hk
    subst hk
    simpa using hw
  · intro h
    exact ⟨cs, [], h, by simp, by simp [patMatch]⟩

theorem patMatch_chs (l : List Char) (ps : List Pat) :
    ∀ cs, patMatch (l.map Pat.ch ++ ps) cs = true ↔
      ∃ r, cs = l ++ r ∧ patMatch ps r = true := by
  induction l with
  | nil => intro cs; simp
  | cons a l' ih =>
    intro cs
    cases cs with
    | nil => simp [patMatch]
    | cons c cs' =>
      simp only [List.map_cons, List.cons_append, patMatch, Bool.and_eq_true,
        decide_eq_true_eq, List.append_eq, ih]
      constructor
      · rintro ⟨h1, r, h2, hk⟩
        exact ⟨r, by rw [h1, h2], hk⟩
      · rintro ⟨r, he, hk⟩
        simp only [List.cons_append, List.cons.injEq] at he
        exact ⟨he.1, r, he.2, hk⟩

theorem patMatch_opt (c : Char) (ps : List Pat) (cs : List Char) :
    patMatch (Pat.optC c :: ps) cs = true ↔
      (∃ r, cs = c :: r ∧ patMatch ps r = true) ∨ patMatch ps cs = true := by
  cases cs with
  | nil => simp [patMatch]
  | cons c' cs' =>
    simp only [patMatch, Bool.or_eq_true, Bool.and_eq_true, decide_eq_true_eq]
    constructor
    · rintro (⟨rfl, hk⟩ | hk)
      · exact Or.inl ⟨cs', rfl, hk⟩
      · exact Or.inr hk
    · rintro (⟨r, he, hk⟩ | hk)
      · rw [List.cons.injEq] at he
        exact Or.inl ⟨he.1, he.2 ▸ hk⟩
      · exact Or.inr hk

theorem patMatch_alt (c₁ c₂ : Char) (ps : List Pat) (cs : List Char) :
    patMatch (Pat.altC c₁ c₂ :: ps) cs = true ↔
      ∃ r, (cs = c₁ :: r ∨ cs = c₂ :: r) ∧ patMatch ps r = true := by
  cases cs with
  | nil => simp [patMatch]
  | cons c' cs' =>
    simp only [patMatch, Bool.and_eq_true, Bool.or_eq_true, decide_eq_true_eq]
    constructor
    · rintro ⟨rfl | rfl, hk⟩
      · exact ⟨cs', Or.inl rfl, hk⟩
      · exact ⟨cs', Or.inr rfl, hk⟩
    · rintro ⟨r, he | he, hk⟩ <;> rw [List.cons.injEq] at he <;>
        obtain ⟨rfl, rfl⟩ := he
      · exact ⟨Or.inl rfl, hk⟩
      · exact ⟨Or.inr rfl, hk⟩

/-- Characterization of the plain `^\s* LIT \s*$` patterns. -/
theorem patMatch_wlw (s : String) (cs : List Char) :
    patMatch (Pat.wsStar :: (litP s ++ [Pat.wsStar])) cs = true ↔ WholeLit s cs := by
  have h0 : patMatch (Pat.wsStar :: (litP s ++ [Pat.wsStar])) cs
      = wsLoop (patMatch (litP s ++ [Pat.wsStar])) cs := rfl
  rw [h0, wsLoop_iff]
  unfold WholeLit litP
  constructor
  · rintro ⟨w, r, hw, rfl, hk⟩
    rw [patMatch_chs] at hk
    obtain ⟨r', rfl, hk'⟩ := hk
    rw [patMatch_wsEnd] at hk'
    exact ⟨w, r', hw, hk', rfl⟩
  · rintro ⟨w1, w2, hw1, hw2, rfl⟩
    refine ⟨w1, s.data ++ w2, hw1, rfl, ?_⟩
    rw [patMatch_chs]
    exact ⟨w2, rfl, (patMatch_wsEnd w2).mpr hw2⟩

/-- Characterization of `^\s*porte s? \s*$`. -/
theorem patMatch_portes (cs : List Char) :
    patMatch (Pat.wsStar :: (litP "porte" ++ [Pat.optC 's', Pat.wsStar])) cs = true ↔
      WholeLit "porte" cs ∨ WholeLit "portes" cs := by
  have h0 : patMatch (Pat.wsStar :: (litP "porte" ++ [Pat.optC 's', Pat.wsStar])) cs
      = wsLoop (patMatch (litP "porte" ++ [Pat.optC 's', Pat.wsStar])) cs := rfl
  rw [h0, wsLoop_iff]
  unfold WholeLit litP
  constructor
  · rintro ⟨w, r, hw, rfl, hk⟩
    rw [patMatch_chs] at hk
    obtain ⟨r', rfl, hk'⟩ := hk
    rw [patMatch_opt] at hk'
    rcases hk' with ⟨r2, rfl, hk2⟩ | hk2
    · rw [patMatch_wsEnd] at hk2
      right
      exact ⟨w, r2, hw, hk2, by simp⟩
    · rw [patMatch_wsEnd] at hk2
      left
      exact ⟨w, r', hw, hk2, rfl⟩
  · rintro (⟨w1, w2, hw1, hw2, rfl⟩ | ⟨w1, w2, hw1, hw2, rfl⟩)
    · refine ⟨w1, "porte".data ++ w2, hw1, rfl, ?_⟩
      rw [patMatch_chs]
      refine ⟨w2, rfl, ?_⟩
      rw [patMatch_opt]
      exact Or.inr ((patMatch_wsEnd w2).mpr hw2)
    · refine ⟨w1, "portes".data ++ w2, hw1, rfl, ?_⟩
      rw [patMatch_chs]
      refine ⟨'s' :: w2, by simp, ?_⟩
      rw [patMatch_opt]
      exact Or.inl ⟨w2, rfl, (patMatch_wsEnd w2).mpr hw2⟩

/-- Characterization of `^\s*env[ií]o\s*$`. -/
theorem patMatch_envio (cs : List Char) :
    patMatch (Pat.wsStar :: (litP "env" ++ (Pat.altC 'i' 'í' :: (litP "o" ++ [Pat.wsStar])))) cs
        = true ↔ WholeLit "envío" cs ∨ WholeLit "envio" cs := by
  have h0 : patMatch (Pat.wsStar :: (litP "env" ++ (Pat.altC 'i' 'í' :: (litP "o" ++ [Pat.wsStar])))) cs
      = wsLoop (patMatch (litP "env" ++ (Pat.altC 'i' 'í' :: (litP "o" ++ [Pat.wsStar])))) cs := rfl
  rw [h0, wsLoop_iff]
  unfold WholeLit litP
  constructor
  · rintro ⟨w, r, hw, rfl, hk⟩
    rw [patMatch_chs] at hk
    obtain ⟨r', rfl, hk'⟩ := hk
    rw [patMatch_alt] at hk'
    obtain ⟨r2, he, hk2⟩ := hk'
    rw [patMatch_chs] at hk2
    obtain ⟨r3, rfl, hk3⟩ := hk2
    rw [patMatch_wsEnd] at hk3
    rcases he with rfl | rfl
    · right
      exact ⟨w, r3, hw, hk3, by simp⟩
    · left
      exact ⟨w, r3, hw, hk3, by simp⟩
  · rintro (⟨w1, w2, hw1, hw2, rfl⟩ | ⟨w1, w2, hw1, hw2, rfl⟩)
    · refine ⟨w1, "envío".data ++ w2, hw1, rfl, ?_⟩
      rw [patMatch_chs]
      refine ⟨'í' :: ("o".data ++ w2), by simp, ?_⟩
      rw [patMatch_alt]
      refine ⟨"o".data ++ w2, Or.inr rfl, ?_⟩
      rw [patMatch_chs]
      exact ⟨w2, rfl, (patMatch_wsEnd w2).mpr hw2⟩
    · refine ⟨w1, "envio".data ++ w2, hw1, rfl, ?_⟩
      rw [patMatch_chs]
      refine ⟨'i' :: ("o".data ++ w2), by simp, ?_⟩
      rw [patMatch_alt]
      refine ⟨"o".data ++ w2, Or.inl rfl, ?_⟩
      rw [patMatch_chs]
      exact ⟨w2, rfl, (patMatch_wsEnd w2).mpr hw2⟩

/-- Characterization of `^\s*shipping\s*costs?\s*$`. -/
theorem patMatch_shipcost (cs : List Char) :
    patMatch (Pat.wsStar :: (litP "shipping" ++ (Pat.wsStar :: (litP "cost"
        ++ [Pat.optC 's', Pat.wsStar])))) cs = true ↔ WholeShippingCost cs := by
  have h0 : patMatch (Pat.wsStar :: (litP "shipping" ++ (Pat.wsStar :: (litP "cost"
        ++ [Pat.optC 's', Pat.wsStar])))) cs
      = wsLoop (patMatch (litP "shipping" ++ (Pat.wsStar :: (litP "cost"
        ++ [Pat.optC 's', Pat.wsStar])))) cs := rfl
  rw [h0, wsLoop_iff]
  unfold WholeShippingCost litP
  constructor
  · rintro ⟨w, r, hw, rfl, hk⟩
    rw [patMatch_chs] at hk
    obtain ⟨r', rfl, hk'⟩ := hk
    have h1 : patMatch (Pat.wsStar :: ("cost".data.map Pat.ch
        ++ [Pat.optC 's', Pat.wsStar])) r'
        = wsLoop (patMatch ("cost".data.map Pat.ch ++ [Pat.optC 's', Pat.wsStar])) r' := rfl
    rw [h1, wsLoop_iff] at hk'
    obtain ⟨wm, r2, hwm, rfl, hk2⟩ := hk'
    rw [patMatch_chs] at hk2
    obtain ⟨r3, rfl, hk3⟩ := hk2
    rw [patMatch_opt] at hk3
    rcases hk3 with ⟨r4, rfl, hk4⟩ | hk4
    · rw [patMatch_wsEnd] at hk4
      exact ⟨w, wm, r4, hw, hwm, hk4, Or.inr (by simp)⟩
    · rw [patMatch_wsEnd] at hk4
      exact ⟨w, wm, r3, hw, hwm, hk4, Or.inl rfl⟩
  · rintro ⟨w1, wm, w2, hw1, hwm, hw2, he | he⟩ <;> subst he
    · refine ⟨w1, _, hw1, rfl, ?_⟩
      rw [patMatch_chs]
      refine ⟨wm ++ ("cost".data ++ w2), rfl, ?_⟩
      have h1 : patMatch (Pat.wsStar :: ("cost".data.map Pat.ch
          ++ [Pat.optC 's', Pat.wsStar])) (wm ++ ("cost".data ++ w2))
          = wsLoop (patMatch ("cost".data.map Pat.ch ++ [Pat.optC 's', Pat.wsStar]))
              (wm ++ ("cost".data ++ w2)) := rfl
      rw [h1, wsLoop_iff]
      refine ⟨wm, "cost".data ++ w2, hwm, rfl, ?_⟩
      rw [patMatch_chs]
      refine ⟨w2, rfl, ?_⟩
      rw [patMatch_opt]
      exact Or.inr ((patMatch_wsEnd w2).mpr hw2)
    · refine ⟨w1, _, hw1, rfl, ?_⟩
      rw [patMatch_chs]
      refine ⟨wm ++ ("costs".data ++ w2), rfl, ?_⟩
      have h1 : patMatch (Pat.wsStar :: ("cost".data.map Pat.ch
          ++ [Pat.optC 's', Pat.wsStar])) (wm ++ ("costs".data ++ w2))
          = wsLoop (patMatch ("cost".data.map Pat.ch ++ [Pat.optC 's', Pat.wsStar]))
              (wm ++ ("costs".data ++ w2)) := rfl
      rw [h1, wsLoop_iff]
      refine ⟨wm, "costs".data ++ w2, hwm, rfl, ?_⟩
      rw [patMatch_chs]
      refine ⟨'s' :: w2, by simp, ?_⟩
      rw [patMatch_opt]
      exact Or.inl ⟨w2, rfl, (patMatch_wsEnd w2).mpr hw2⟩

/-- Claim C5 (amended): `is_transport_name` returns true iff the
trimmed, lower-cased name matches one of the fixed transport patterns
as a whole string, and names that merely contain a transport word in a
longer name (e.g. "Transporte especial") are classified false by it;
`inspect_so.py`'s `is_transport_line`, however, additionally classifies
names merely containing "envío"/"envio" as transport. -/
theorem transport_name_whole_string :
    (∀ name : String, is_transport_name name = true ↔
        TransportWholeWS (pyLowerS (pyStripS name)).data) ∧
    is_transport_name "Transporte especial" = false ∧
    is_transport_line (.str "envio especial") [] = true := by
  refine ⟨?_, by decide, by decide⟩
  intro name
  simp only [is_transport_name, TRANSPORT_NAME_PATTERNS, List.any_cons, List.any_nil,
    Bool.or_eq_true, List.append_assoc, List.singleton_append, List.cons_append,
    List.nil_append, patMatch_wlw, patMatch_portes, patMatch_envio, patMatch_shipcost,
    TransportWholeWS]
  tauto

/-- Claim C5 (counterexample): "envio" is itself a transport word
(whole-string match), and a name merely containing it — which the
claim says must be classified false — is classified true by
`inspect_so.py`'s `is_transport_line`. -/
theorem transport_substring_counterexample :
    is_transport_line (.str "envio especial") [] = true ∧
    is_transport_name "envio" = true ∧
    is_transport_name "envio especial" = false :=
  ⟨by decide, by decide, by decide⟩

/-! ## Transport allocation -/

theorem transport_foldl (ps : List JVal) : ∀ (a : ℚ) (b : Bool),
    ps.foldl (fun (acc : ℚ × Bool) p =>
      if is_transport_name (pyStrOrEmpty (jGet p "name")) then
        (acc.1 + pyFloatOr0 (jGet p "price") * pyFloatOr0 (jGet p "units"), true)
      else acc) (a, b)
    = (a + ((ps.filter (fun p => is_transport_name (pyStrOrEmpty (jGet p "name")))).map
          (fun p => pyFloatOr0 (jGet p "price") * pyFloatOr0 (jGet p "units"))).sum,
       b || ps.any (fun p => is_transport_name (pyStrOrEmpty (jGet p "name")))) := by
  induction ps with
  | nil => intro a b; simp
  | cons p ps ih =>
    intro a b
    by_cases hp : is_transport_name (pyStrOrEmpty (jGet p "name")) = true
    · simp only [List.foldl_cons, hp, if_pos, List.filter_cons_of_pos, List.map_cons,
        List.sum_cons, List.any_cons, ih, Bool.true_or]
      rw [add_assoc]
      simp
    · simp only [List.foldl_cons, if_neg hp, ih, List.any_cons]
      rw [List.filter_cons_of_neg (by simp [hp])]
      simp [hp]

theorem extract_transport_eq (doc : RawDoc) :
    extract_transport_amount_from_doc doc =
      if has_transport_line doc then some (transportSumSpec doc) else none := by
  unfold extract_transport_amount_from_doc has_transport_line transportSumSpec
  rw [transport_foldl]
  simp

theorem enumFrom_assign (t : Option ℚ) (rs : List Row) : ∀ n : ℕ,
    (List.enumFrom (n + 1) rs).map
        (fun ir => { ir.2 with transporte := if ir.1 = 0 then t else none }) =
      rs.map (fun r' => { r' with transporte := none }) := by
  induction rs with
  | nil => intro n; rfl
  | cons r rs ih =>
    intro n
    simp only [List.enumFrom, List.map_cons, ih (n + 1)]
    norm_num

theorem assign_transport_struct (rows : List Row) (t : Option ℚ) :
    rows.enum.map (fun ir => { ir.2 with transporte := if ir.1 = 0 then t else none }) =
      (match rows with
       | [] => []
       | r :: rs => ({ r with transporte := t }) ::
           rs.map (fun r' => { r' with transporte := none })) := by
  cases rows with
  | nil => rfl
  | cons r rs =>
    show (List.enumFrom 0 (r :: rs)).map _ = _
    simp only [List.enumFrom, List.map_cons, enumFrom_assign t rs 0]
    norm_num

/-- The per-document row pipeline in closed form. -/
theorem doc_material_rows_eq (doc : RawDoc) (prodOf : Line → JVal) :
    doc_material_rows doc prodOf =
      (match ((iter_document_lines doc).filter (fun ln => !ln.is_transport)).map
          (fun ln => build_row doc ln (prodOf ln)) with
       | [] => []
       | r :: rs => ({ r with transporte := extract_transport_amount_from_doc doc }) ::
           rs.map (fun r' => { r' with transporte := none })) := by
  unfold doc_material_rows
  exact assign_transport_struct _ _

/-- Claim C4 (amended): the transport amount of a document is the sum of
price×quantity over its transport lines when it has a transport line and
the `"-"` sentinel otherwise; every row but the first carries the
sentinel, the first row carries the document transport amount, and so
exactly one row is non-sentinel iff the document has at least one
material row AND at least one transport line — a document with rows but
no transport line has no non-sentinel row. -/
theorem transport_allocation (doc : RawDoc) (prodOf : Line → JVal) :
    (extract_transport_amount_from_doc doc
        = if has_transport_line doc then some (transportSumSpec doc) else none) ∧
    (∀ (i : ℕ) (r : Row), (doc_material_rows doc prodOf).get? i = some r →
        r.transporte = if i = 0 then extract_transport_amount_from_doc doc else none) ∧
    ((doc_material_rows doc prodOf).countP (fun r => r.transporte.isSome)
        = if (doc_material_rows doc prodOf).isEmpty = false ∧ has_transport_line doc
          then 1 else 0) := by
  refine ⟨extract_transport_eq doc, ?_, ?_⟩
  · intro i r h
    rw [doc_material_rows_eq] at h
    rcases hm : ((iter_document_lines doc).filter (fun ln => !ln.is_transport)).map
        (fun ln => build_row doc ln (prodOf ln)) with _ | ⟨r0, rs⟩ <;> rw [hm] at h
    · simp at h
    · cases i with
      | zero =>
        rw [List.get?_cons_zero, Option.some.injEq] at h
        rw [← h]
        rfl
      | succ i =>
        rw [List.get?_cons_succ, List.get?_map] at h
        rcases hg : rs.get? i with _ | r' <;> rw [hg] at h
        · exact Option.noConfusion h
        · have h2 : ({ r' with transporte := none } : Row) = r := by injection h
          rw [← h2]
          simp
  · rw [doc_material_rows_eq, extract_transport_eq]
    rcases hm : ((iter_document_lines doc).filter (fun ln => !ln.is_transport)).map
        (fun ln => build_row doc ln (prodOf ln)) with _ | ⟨r0, rs⟩ <;> rw [hm]
    · simp
    · simp only [List.isEmpty_cons, List.countP_cons]
      have hrs : rs.countP
          ((fun r => r.transporte.isSome) ∘ (fun r' => { r' with transporte := none })) = 0 := by
        apply List.countP_eq_zero.mpr
        intro r' _
        simp
      rw [List.countP_map, hrs]
      by_cases ht : has_transport_line doc = true <;> simp [ht]

/-- Witness for C4 at a concrete document with one transport line
between two material lines. -/
theorem transport_allocation_witness :
    (extract_transport_amount_from_doc docWithTransport
        = if has_transport_line docWithTransport then some (transportSumSpec docWithTransport)
          else none) ∧
    ((doc_material_rows docWithTransport (fun _ => JVal.obj [])).countP
        (fun r => r.transporte.isSome)
      = if (doc_material_rows docWithTransport (fun _ => JVal.obj [])).isEmpty = false ∧
            has_transport_line docWithTransport then 1 else 0) := by
  have h := transport_allocation docWithTransport (fun _ => JVal.obj [])
  exact ⟨h.1, h.2.2⟩

/-- Claim C4 (counterexample): a document with one material row and no
transport line has rows, yet zero rows carry a non-sentinel transport
amount — the claim requires exactly one. -/
theorem transport_allocation_counterexample :
    (doc_material_rows doc605 (fun _ => JVal.obj [])).length = 1 ∧
    (doc_material_rows doc605 (fun _ => JVal.obj [])).countP
        (fun r => r.transporte.isSome) = 0 := by
  constructor <;> rfl

/-! ## Price-mode helpers and claim -/

/-- `build_row`'s price fields in closed form (the rest of the record is
independent of the branch taken here). -/
theorem build_row_price_fields (doc : RawDoc) (line : Line) (product : JVal) :
    ((build_row doc line product).precio_valor =
      if ¬(extract_power_w product (if line.name = "" then "-" else line.name) line.sku = 0)
      then compute_price_per_w line.amount line.qty
        (extract_power_w product (if line.name = "" then "-" else line.name) line.sku)
      else line.unit_price) ∧
    ((build_row doc line product).precio_unidad =
      if ¬(extract_power_w product (if line.name = "" then "-" else line.name) line.sku = 0)
      then "€/W" else "€/ud") := by
  by_cases h : extract_power_w product (if line.name = "" then "-" else line.name) line.sku = 0 <;>
    simp [build_row, h]

/-- `build_row`'s pallet count when the power is known, the quantity is
positive and a positive units-per-pallet was inferred. -/
theorem build_row_pallets_num (doc : RawDoc) (line : Line) (product : JVal)
    (hpw : ¬ extract_power_w product (if line.name = "" then "-" else line.name) line.sku = 0)
    (hq : line.qty > 0)
    (hupp : (infer_units_per_pallet product (if line.name = "" then "-" else line.name)
        line.sku (pyIntOfFloat line.qty)).1 > 0) :
    (build_row doc line product).pallets_num =
      ⌈line.qty / (infer_units_per_pallet product
          (if line.name = "" then "-" else line.name) line.sku (pyIntOfFloat line.qty)).1⌉ := by
  simp [build_row, hpw, hq, hupp]

/-- Claim C7 (amended): a row is priced per watt exactly when the
extracted power is NONZERO (a negative direct power attribute also
selects per-watt mode) and per unit exactly when the power is zero; the
modes are mutually exclusive and total; the per-watt division is
guarded, yielding 0 whenever quantity or power is zero instead of
raising. -/
theorem price_mode_total (doc : RawDoc) (line : Line) (product : JVal) :
    ((build_row doc line product).precio_unidad = "€/W" ↔
      ¬(extract_power_w product (if line.name = "" then "-" else line.name) line.sku = 0)) ∧
    ((build_row doc line product).precio_unidad = "€/ud" ↔
      extract_power_w product (if line.name = "" then "-" else line.name) line.sku = 0) ∧
    (¬(extract_power_w product (if line.name = "" then "-" else line.name) line.sku = 0) →
      (build_row doc line product).precio_valor =
        compute_price_per_w line.amount line.qty
          (extract_power_w product (if line.name = "" then "-" else line.name) line.sku)) ∧
    (extract_power_w product (if line.name = "" then "-" else line.name) line.sku = 0 →
      (build_row doc line product).precio_valor = line.unit_price) ∧
    (∀ a q p : ℚ, q = 0 ∨ p = 0 → compute_price_per_w a q p = 0) := by
  obtain ⟨hv, hu⟩ := build_row_price_fields doc line product
  refine ⟨?_, ?_, ?_, ?_, ?_⟩
  · rw [hu]
    by_cases h : extract_power_w product (if line.name = "" then "-" else line.name) line.sku = 0 <;>
      simp [h]
  · rw [hu]
    by_cases h : extract_power_w product (if line.name = "" then "-" else line.name) line.sku = 0 <;>
      simp [h]
  · intro h
    rw [hv, if_pos h]
  · intro h
    rw [hv, if_neg (by simpa using h)]
  · intro a q p h
    unfold compute_price_per_w
    rcases h with rfl | rfl <;> simp

/-- Witness for C7 at the scenario line (power 605 ≠ 0) and a concrete
guarded division. -/
theorem price_mode_total_witness :
    ((build_row doc605 line605 (JVal.obj [])).precio_valor =
      compute_price_per_w line605.amount line605.qty
        (extract_power_w (JVal.obj []) (if line605.name = "" then "-" else line605.name)
          line605.sku)) ∧
    compute_price_per_w 5 0 3 = 0 := by
  have h := price_mode_total doc605 line605 (JVal.obj [])
  exact ⟨h.2.2.1 (by decide), h.2.2.2.2 5 0 3 (Or.inl rfl)⟩

/-- Claim C7 (counterexample): a product whose direct power attribute is
-500 yields per-watt mode although the extracted power is not greater
than 0 — the mode tracks power ≠ 0, not power > 0. -/
theorem price_mode_counterexample :
    extract_power_w prodNegPower "-" "" = -500 ∧
    (build_row docPlain (line_of_item itemNoName) prodNegPower).precio_unidad = "€/W" ∧
    ¬(0 : ℚ) < -500 := by
  refine ⟨by decide, by decide, by norm_num⟩

/-! ## Power extraction from text -/

theorem extract_power_marked (product : JVal) (item_name item_sku : String) (n : ℕ)
    (hdirect : (try_fields product POWER_KEYS).bind pyFloat? = none)
    (h : firstMarkedMax (powerTexts product item_name item_sku) = some n) :
    extract_power_w product item_name item_sku = n := by
  unfold extract_power_w
  rw [hdirect]
  simp only []
  rw [h]

theorem extract_power_bare (product : JVal) (item_name item_sku : String)
    (hdirect : (try_fields product POWER_KEYS).bind pyFloat? = none)
    (h : firstMarkedMax (powerTexts product item_name item_sku) = none) :
    extract_power_w product item_name item_sku =
      ((((powerTexts product item_name item_sku).foldl
          (fun acc txt => acc ++ bareCands txt) []).max?).getD 0 : ℕ) := by
  unfold extract_power_w
  rw [hdirect]
  simp only []
  rw [h]
  simp only []
  rcases hm : ((powerTexts product item_name item_sku).foldl
      (fun acc txt => acc ++ bareCands txt) []).max? with _ | m <;> simp [hm]

/-- Claim C3 (amended): with no usable direct power attribute, the
marked-number scan is per text, first match wins — the result is the
maximum in-range marked number of the FIRST text (in order line name,
line SKU, product name, product SKU) that has one, not the maximum over
the concatenated text; only the bare-number fallback takes the maximum
over all four texts, and the result is 0 when neither scan finds a
candidate. The spec's scenario (line "Panel 605W", units 40, price 100,
no product) yields power 605, per-watt mode and value 100×40/(40×605). -/
theorem extract_power_text_fallback (product : JVal) (item_name item_sku : String)
    (hdirect : (try_fields product POWER_KEYS).bind pyFloat? = none) :
    (∀ n : ℕ, (markedCands item_name).max? = some n →
        extract_power_w product item_name item_sku = n) ∧
    (markedCands item_name = [] → ∀ n : ℕ, (markedCands item_sku).max? = some n →
        extract_power_w product item_name item_sku = n) ∧
    (markedCands item_name = [] → markedCands item_sku = [] →
      ∀ n : ℕ, (markedCands (prodNameText product)).max? = some n →
        extract_power_w product item_name item_sku = n) ∧
    (markedCands item_name = [] → markedCands item_sku = [] →
      markedCands (prodNameText product) = [] →
      ∀ n : ℕ, (markedCands (prodSkuText product)).max? = some n →
        extract_power_w product item_name item_sku = n) ∧
    ((∀ t ∈ powerTexts product item_name item_sku, markedCands t = []) →
      extract_power_w product item_name item_sku =
        ((((powerTexts product item_name item_sku).foldl
            (fun acc txt => acc ++ bareCands txt) []).max?).getD 0 : ℕ)) ∧
    extract_power_w (JVal.obj []) "Panel 605W" "" = 605 ∧
    (build_row doc605 line605 (JVal.obj [])).precio_valor = 100 * 40 / ((40 : ℚ) * 605) ∧
    (build_row doc605 line605 (JVal.obj [])).precio_unidad = "€/W" := by
  have hcons : ∀ (t : String) (ts : List String), firstMarkedMax (t :: ts) =
      (match (markedCands t).max? with
       | some m => some m
       | none => firstMarkedMax ts) := fun _ _ => rfl
  have hskip : ∀ (t : String) (ts : List String), markedCands t = [] →
      firstMarkedMax (t :: ts) = firstMarkedMax ts := by
    intro t ts h
    rw [hcons, h]
    rfl
  have htake : ∀ (t : String) (ts : List String) (n : ℕ), (markedCands t).max? = some n →
      firstMarkedMax (t :: ts) = some n := by
    intro t ts n h
    rw [hcons, h]
  have hpt : powerTexts product item_name item_sku
      = item_name :: item_sku :: prodNameText product :: [prodSkuText product] := rfl
  refine ⟨?_, ?_, ?_, ?_, ?_, by decide, ?_, ?_⟩
  · intro n hn
    exact extract_power_marked product item_name item_sku n hdirect
      (by rw [hpt, htake _ _ n hn])
  · intro h1 n hn
    exact extract_power_marked product item_name item_sku n hdirect
      (by rw [hpt, hskip _ _ h1, htake _ _ n hn])
  · intro h1 h2 n hn
    exact extract_power_marked product item_name item_sku n hdirect
      (by rw [hpt, hskip _ _ h1, hskip _ _ h2, htake _ _ n hn])
  · intro h1 h2 h3 n hn
    exact extract_power_marked product item_name item_sku n hdirect
      (by rw [hpt, hskip _ _ h1, hskip _ _ h2, hskip _ _ h3, htake _ _ n hn])
  · intro hall
    refine extract_power_bare product item_name item_sku hdirect ?_
    have h1 := hall item_name (by simp [powerTexts])
    have h2 := hall item_sku (by simp [powerTexts])
    have h3 := hall (prodNameText product) (by simp [powerTexts])
    have h4 := hall (prodSkuText product) (by simp [powerTexts])
    rw [hpt, hskip _ _ h1, hskip _ _ h2, hskip _ _ h3, hskip _ _ h4]
    rfl
  · have hb := (build_row_price_fields doc605 line605 (JVal.obj [])).1
    have hpw : extract_power_w (JVal.obj [])
        (if line605.name = "" then "-" else line605.name) line605.sku = 605 := by decide
    have hq : line605.qty = 40 := by decide
    have hup : pyFloatOr0 (jGet item605 "price") = 100 := by decide
    have huu : pyFloatOr0 (jGet item605 "units") = 40 := by decide
    have ham : line605.amount = 100 * 40 := by
      show pyFloatOr0 (jGet item605 "price") * pyFloatOr0 (jGet item605 "units") = _
      rw [hup, huu]
    rw [hb, hpw, if_pos (by norm_num), ham, hq]
    unfold compute_price_per_w
    rw [if_pos (by norm_num)]
  · have hu := (build_row_price_fields doc605 line605 (JVal.obj [])).2
    have hpw : extract_power_w (JVal.obj [])
        (if line605.name = "" then "-" else line605.name) line605.sku = 605 := by decide
    rw [hu, hpw, if_pos (by norm_num)]

/-- Witness for C3: the scenario instance through the theorem, with the
direct-attribute hypothesis discharged at the empty product record. -/
theorem extract_power_text_fallback_witness :
    extract_power_w (JVal.obj []) "Panel 605W" "" = 605 :=
  (extract_power_text_fallback (JVal.obj []) "Panel 605W" "" rfl).2.2.2.2.2.1

/-- Claim C3 (counterexample): with marked candidates 400 in the line
name and 605 in the line SKU, the maximum over the concatenated text is
605, but the function returns 400 — the marked scan stops at the first
text that has any candidate. -/
theorem extract_power_counterexample :
    extract_power_w (JVal.obj []) "Panel 400W" "605W" = 400 ∧
    markedCands "Panel 400W" = [400] ∧ markedCands "605W" = [605] ∧
    ¬ extract_power_w (JVal.obj []) "Panel 400W" "605W" = 605 := by
  refine ⟨by decide, by decide, by decide, by decide⟩

/-! ## Pack inference -/

/-- Invariant of the closest-fit accumulator loop: starting from a seen
candidate, the final result is that candidate or a later one, its
leftover is its remainder, it beats the start, and it beats every
candidate of the remaining list (smaller remainder, or equal remainder
and at least as large a pack size). -/
theorem closest_foldl_spec (qty : ℤ) (l : List ℤ) : ∀ (bp bl bp' bl' : ℤ),
    List.foldl (closestStep qty) (some (bp, bl)) l = some (bp', bl') →
    ((bp' = bp ∧ bl' = bl) ∨ (bp' ∈ l ∧ bl' = qty.emod bp')) ∧
    (bl' < bl ∨ (bl' = bl ∧ bp ≤ bp')) ∧
    (∀ p ∈ l, bl' < qty.emod p ∨ (bl' = qty.emod p ∧ p ≤ bp')) := by
  induction l with
  | nil =>
    intro bp bl bp' bl' h
    simp only [List.foldl_nil, Option.some.injEq, Prod.mk.injEq] at h
    exact ⟨Or.inl ⟨h.1.symm, h.2.symm⟩, Or.inr ⟨h.2.symm, h.1 ▸ le_refl _⟩, by simp⟩
  | cons q l ih =>
    intro bp bl bp' bl' h
    rw [List.foldl_cons] at h
    by_cases hc : qty.emod q < bl ∨ (qty.emod q = bl ∧ bp < q)
    · rw [show closestStep qty (some (bp, bl)) q = some (q, qty.emod q) from by
        simp [closestStep, hc]] at h
      obtain ⟨hmem, hbeat, hall⟩ := ih q (qty.emod q) bp' bl' h
      refine ⟨?_, ?_, ?_⟩
      · rcases hmem with ⟨rfl, rfl⟩ | ⟨hm, he⟩
        · exact Or.inr ⟨List.mem_cons_self .., rfl⟩
        · exact Or.inr ⟨List.mem_cons_of_mem _ hm, he⟩
      · rcases hbeat with h1 | ⟨h1, h2⟩ <;> rcases hc with h3 | ⟨h3, h4⟩ <;> omega
      · intro p hp
        rcases List.mem_cons.mp hp with rfl | hp'
        · exact hbeat
        · exact hall p hp'
    · rw [show closestStep qty (some (bp, bl)) q = some (bp, bl) from by
        simp only [closestStep]
        rw [if_neg hc]] at h
      obtain ⟨hmem, hbeat, hall⟩ := ih bp bl bp' bl' h
      push_neg at hc
      refine ⟨?_, hbeat, ?_⟩
      · rcases hmem with h1 | ⟨hm, he⟩
        · exact Or.inl h1
        · exact Or.inr ⟨List.mem_cons_of_mem _ hm, he⟩
      · intro p hp
        rcases List.mem_cons.mp hp with rfl | hp'
        · rcases hbeat with h1 | ⟨h1, h2⟩ <;>
            rcases lt_or_eq_of_le hc.1 with h3 | h3 <;> omega
        · exact hall p hp'

theorem closest_foldl_some (qty : ℤ) (l : List ℤ) : ∀ (bp bl : ℤ),
    ∃ r, List.foldl (closestStep qty) (some (bp, bl)) l = some r := by
  induction l with
  | nil => intro bp bl; exact ⟨(bp, bl), rfl⟩
  | cons q l ih =>
    intro bp bl
    rw [List.foldl_cons]
    by_cases hc : qty.emod q < bl ∨ (qty.emod q = bl ∧ bp < q)
    · rw [show closestStep qty (some (bp, bl)) q = some (q, qty.emod q) from by
        simp [closestStep, hc]]
      exact ih q (qty.emod q)
    · rw [show closestStep qty (some (bp, bl)) q = some (bp, bl) from by
        simp only [closestStep]
        rw [if_neg hc]]
      exact ih bp bl

/-- The closest-fit pass over the fixed candidate list returns a
candidate of the list with its remainder as leftover, minimizing the
remainder with the larger pack size breaking ties. -/
theorem closest_possible_spec (qty : ℤ) (bp' bl' : ℤ)
    (h : List.foldl (closestStep qty) none POSSIBLE_PACK_SIZES = some (bp', bl')) :
    bp' ∈ POSSIBLE_PACK_SIZES ∧ bl' = qty.emod bp' ∧
    ∀ p ∈ POSSIBLE_PACK_SIZES, bl' < qty.emod p ∨ (bl' = qty.emod p ∧ p ≤ bp') := by
  have h36 : List.foldl (closestStep qty) none POSSIBLE_PACK_SIZES
      = List.foldl (closestStep qty) (some (36, qty.emod 36)) [37, 35, 33, 31, 30] := rfl
  rw [h36] at h
  obtain ⟨hmem, hbeat, hall⟩ := closest_foldl_spec qty [37, 35, 33, 31, 30] 36 (qty.emod 36) bp' bl' h
  refine ⟨?_, ?_, ?_⟩
  · rcases hmem with ⟨rfl, _⟩ | ⟨hm, _⟩
    · decide
    · simp only [POSSIBLE_PACK_SIZES]
      simp only [List.mem_cons, List.not_mem_nil, or_false] at hm ⊢
      tauto
  · rcases hmem with ⟨rfl, h2⟩ | ⟨_, h2⟩ <;> exact h2
  · intro p hp
    simp only [POSSIBLE_PACK_SIZES, List.mem_cons, List.not_mem_nil, or_false] at hp
    rcases hp with rfl | hp'
    · exact hbeat
    · exact hall p (by simp only [List.mem_cons, List.not_mem_nil, or_false]; tauto)

/-- Claim C6: pack inference over the fixed candidate list
[36, 37, 35, 33, 31, 30] for a positive quantity with no usable product
attribute and no pattern-rule match: a unique divisor wins with
confidence "divisible" and leftover 0; several divisors prefer 36 when
present, else the largest, with confidence "ambiguous_divisible", the
others as alternatives and leftover 0; no divisor picks the candidate
minimizing the remainder with the larger pack size breaking ties, with
confidence "closest" and the remainder as leftover. Quantity 72 yields
pack size 36, confidence "divisible", leftover 0 and 2 pallets. -/
theorem pack_inference_fallback (product : JVal) (name sku : String) (qty : ℤ)
    (hattr : ¬ extract_units_per_pallet product > 0)
    (hpat : ¬ hint_units_per_pallet_by_pattern name sku product > 0)
    (hq : 0 < qty) :
    (∀ p : ℤ, POSSIBLE_PACK_SIZES.filter (fun c => qty.emod c = 0) = [p] →
        infer_units_per_pallet product name sku qty = ((p : ℚ), "divisible", [], 0)) ∧
    (∀ l : List ℤ, POSSIBLE_PACK_SIZES.filter (fun c => qty.emod c = 0) = l →
        2 ≤ l.length →
        ((36 ∈ l →
            infer_units_per_pallet product name sku qty
              = ((36 : ℚ), "ambiguous_divisible", l.filter (fun p => p ≠ 36), 0)) ∧
         (¬ 36 ∈ l →
            infer_units_per_pallet product name sku qty
              = (((l.max?).getD 0 : ℚ), "ambiguous_divisible",
                 l.filter (fun p => p ≠ (l.max?).getD 0), 0)))) ∧
    (POSSIBLE_PACK_SIZES.filter (fun c => qty.emod c = 0) = [] →
        ∃ bp : ℤ, infer_units_per_pallet product name sku qty
            = ((bp : ℚ), "closest", [], qty.emod bp) ∧
          bp ∈ POSSIBLE_PACK_SIZES ∧
          ∀ p ∈ POSSIBLE_PACK_SIZES,
            qty.emod bp < qty.emod p ∨ (qty.emod bp = qty.emod p ∧ p ≤ bp)) ∧
    infer_units_per_pallet (JVal.obj []) "Panel" "" 72 = ((36 : ℚ), "divisible", [], 0) ∧
    (build_row doc72 (line_of_item item72) (JVal.obj [])).pallets_num = 2 := by
  have hq0 : ¬ qty = 0 := by omega
  refine ⟨?_, ?_, ?_, by decide, ?_⟩
  · intro p hfil
    simp only [infer_units_per_pallet, if_neg hattr, if_neg hpat, hq0, not_false_iff,
      if_true, ne_eq, if_pos, hfil]
    simp
  · intro l hfil h2
    constructor <;> intro h36 <;>
      simp only [infer_units_per_pallet, if_neg hattr, if_neg hpat, hq0, not_false_iff,
        if_true, ne_eq, hfil] <;>
      rw [if_neg (by omega : ¬ l.length = 1), if_pos (by omega : 1 < l.length)] <;>
      simp [h36]
  · intro hfil
    obtain ⟨⟨bp, bl⟩, hfold⟩ := closest_foldl_some qty [37, 35, 33, 31, 30] 36 (qty.emod 36)
    have hfold' : List.foldl (closestStep qty) none POSSIBLE_PACK_SIZES = some (bp, bl) := hfold
    obtain ⟨hmem, hrem, hmin⟩ := closest_possible_spec qty bp bl hfold'
    rw [hrem] at hmin
    refine ⟨bp, ?_, hmem, hmin⟩
    simp only [infer_units_per_pallet, if_neg hattr, if_neg hpat, hq0, not_false_iff,
      if_true, ne_eq, hfil]
    rw [if_neg (by simp), if_neg (by simp), hfold']
    rw [hrem]
  · have h := build_row_pallets_num doc72 (line_of_item item72) (JVal.obj [])
      (by decide) (by decide) (by decide)
    have hq72 : (line_of_item item72).qty = 72 := by decide
    have hupp : (infer_units_per_pallet (JVal.obj [])
        (if (line_of_item item72).name = "" then "-" else (line_of_item item72).name)
        (line_of_item item72).sku (pyIntOfFloat (line_of_item item72).qty)).1 = 36 := by decide
    rw [hupp, hq72] at h
    rw [h]
    norm_num

/-- Witness for C6 at quantity 72 with no product, no attribute and no
pattern match: the only divisor among [36, 37, 35, 33, 31, 30] is 36,
and the inference returns (36, "divisible", [], 0). -/
theorem pack_inference_fallback_witness :
    ¬ extract_units_per_pallet (JVal.obj []) > 0 ∧
    ¬ hint_units_per_pallet_by_pattern "Panel" "" (JVal.obj []) > 0 ∧
    (0 : ℤ) < 72 ∧
    POSSIBLE_PACK_SIZES.filter (fun c => (72 : ℤ).emod c = 0) = [36] ∧
    infer_units_per_pallet (JVal.obj []) "Panel" "" 72 = ((36 : ℚ), "divisible", [], 0) :=
  ⟨by decide, by decide, by decide, by decide,
    (pack_inference_fallback (JVal.obj []) "Panel" "" 72 (by decide) (by decide)
      (by decide)).1 36 (by decide)⟩

/-- Claim C9: for a positive quantity the inferred units-per-pallet is
strictly positive and the confidence is one of the five informative
tags; the "unknown" result with units-per-pallet 0 occurs only when the
quantity is 0 and neither the attribute nor a pattern rule applies. -/
theorem pack_inference_invariants (product : JVal) (name sku : String) (qty : ℤ) :
    (0 < qty →
      0 < (infer_units_per_pallet product name sku qty).1 ∧
      (infer_units_per_pallet product name sku qty).2.1 ∈
        (["attr", "pattern", "divisible", "ambiguous_divisible", "closest"] : List String)) ∧
    ((infer_units_per_pallet product name sku qty).2.1 = "unknown" →
      qty = 0 ∧ ¬ extract_units_per_pallet product > 0 ∧
      ¬ hint_units_per_pallet_by_pattern name sku product > 0 ∧
      (infer_units_per_pallet product name sku qty).1 = 0) := by
  have hpos : ∀ p ∈ POSSIBLE_PACK_SIZES, (0 : ℤ) < p := by decide
  by_cases hattr : extract_units_per_pallet product > 0
  · constructor
    · intro _
      simp only [infer_units_per_pallet, if_pos hattr]
      exact ⟨hattr, by decide⟩
    · intro h
      simp only [infer_units_per_pallet, if_pos hattr] at h
      exact absurd h (by decide)
  · by_cases hpat : hint_units_per_pallet_by_pattern name sku product > 0
    · constructor
      · intro _
        simp only [infer_units_per_pallet, if_neg hattr, if_pos hpat]
        exact ⟨hpat, by decide⟩
      · intro h
        simp only [infer_units_per_pallet, if_neg hattr, if_pos hpat] at h
        exact absurd h (by decide)
    · by_cases hq : qty = 0
      · constructor
        · intro hlt
          omega
        · intro _
          refine ⟨hq, hattr, hpat, ?_⟩
          simp only [infer_units_per_pallet, if_neg hattr, if_neg hpat, hq]
          simp
      · have hq' : qty ≠ 0 := hq
        have hmain : 0 < (infer_units_per_pallet product name sku qty).1 ∧
            (infer_units_per_pallet product name sku qty).2.1 ∈
              (["attr", "pattern", "divisible", "ambiguous_divisible",
                "closest"] : List String) := by
          rcases hfil : POSSIBLE_PACK_SIZES.filter (fun c => qty.emod c = 0)
              with _ | ⟨p, rest⟩
          · obtain ⟨⟨bp, bl⟩, hfold⟩ :=
              closest_foldl_some qty [37, 35, 33, 31, 30] 36 (qty.emod 36)
            have hfold' : List.foldl (closestStep qty) none POSSIBLE_PACK_SIZES
                = some (bp, bl) := hfold
            obtain ⟨hmem, _, _⟩ := closest_possible_spec qty bp bl hfold'
            have hinf : infer_units_per_pallet product name sku qty
                = ((bp : ℚ), "closest", [], bl) := by
              simp only [infer_units_per_pallet, if_neg hattr, if_neg hpat, hq',
                not_false_iff, if_true, ne_eq, hfil]
              rw [if_neg (by simp), if_neg (by simp), hfold']
            rw [hinf]
            constructor
            · show (0 : ℚ) < (bp : ℚ)
              exact_mod_cast hpos bp hmem
            · show ("closest" : String) ∈ _
              decide
          · rcases rest with _ | ⟨p2, rest2⟩
            · have hpmem : p ∈ POSSIBLE_PACK_SIZES :=
                (List.mem_filter.mp (hfil ▸ List.mem_singleton_self p)).1
              have hinf : infer_units_per_pallet product name sku qty
                  = ((p : ℚ), "divisible", [], 0) := by
                simp only [infer_units_per_pallet, if_neg hattr, if_neg hpat, hq',
                  not_false_iff, if_true, ne_eq, hfil]
                simp
              rw [hinf]
              constructor
              · show (0 : ℚ) < (p : ℚ)
                exact_mod_cast hpos p hpmem
              · show ("divisible" : String) ∈ _
                decide
            · have hlen1 : ¬ (p :: p2 :: rest2 : List ℤ).length = 1 := by
                simp only [List.length_cons]
                omega
              have hlen2 : 1 < (p :: p2 :: rest2 : List ℤ).length := by
                simp only [List.length_cons]
                omega
              have hsub : ∀ x ∈ (p :: p2 :: rest2 : List ℤ), x ∈ POSSIBLE_PACK_SIZES := by
                intro x hx
                rw [← hfil] at hx
                exact (List.mem_filter.mp hx).1
              by_cases h36 : (36 : ℤ) ∈ (p :: p2 :: rest2 : List ℤ)
              · have hinf : infer_units_per_pallet product name sku qty
                    = ((36 : ℚ), "ambiguous_divisible",
                       (p :: p2 :: rest2).filter (fun x => x ≠ 36), 0) := by
                  simp only [infer_units_per_pallet, if_neg hattr, if_neg hpat, hq',
                    not_false_iff, if_true, ne_eq, hfil]
                  rw [if_neg hlen1, if_pos hlen2]
                  simp [h36]
                rw [hinf]
                constructor
                · norm_num
                · show ("ambiguous_divisible" : String) ∈ _
                  decide
              · rcases hmax : (p :: p2 :: rest2 : List ℤ).max? with _ | m
                · rw [List.max?_eq_none_iff] at hmax
                  simp at hmax
                · have hm : m ∈ (p :: p2 :: rest2 : List ℤ) :=
                    List.max?_mem (fun a b => max_choice a b) hmax
                  have hmP : m ∈ POSSIBLE_PACK_SIZES := hsub m hm
                  have hinf : infer_units_per_pallet product name sku qty
                      = ((m : ℚ), "ambiguous_divisible",
                         (p :: p2 :: rest2).filter (fun x => x ≠ m), 0) := by
                    simp only [infer_units_per_pallet, if_neg hattr, if_neg hpat, hq',
                      not_false_iff, if_true, ne_eq, hfil]
                    rw [if_neg hlen1, if_pos hlen2]
                    simp [h36, hmax]
                  rw [hinf]
                  constructor
                  · show (0 : ℚ) < (m : ℚ)
                    exact_mod_cast hpos m hmP
                  · show ("ambiguous_divisible" : String) ∈ _
                    decide
        have hunk : ¬ (infer_units_per_pallet product name sku qty).2.1 = "unknown" := by
          intro hcontra
          have h5 := hmain.2
          rw [hcontra] at h5
          exact absurd h5 (by decide)
        exact ⟨fun _ => hmain, fun h => absurd h hunk⟩

/-- Witness for C9 at quantity 72 with no product: the inferred
units-per-pallet is positive and the confidence is an informative tag. -/
theorem pack_inference_invariants_witness :
    (0 : ℤ) < 72 ∧
    0 < (infer_units_per_pallet (JVal.obj []) "Panel" "" 72).1 ∧
    (infer_units_per_pallet (JVal.obj []) "Panel" "" 72).2.1 ∈
      (["attr", "pattern", "divisible", "ambiguous_divisible", "closest"] : List String) :=
  ⟨by decide, (pack_inference_invariants (JVal.obj []) "Panel" "" 72).1 (by decide)⟩

end SO
